import Mathlib

/-!
Verification of the document-store specification extracted from the
Bachelor repository (TinyDB test-generation project).  The repository's
own code consists of the four Gemini test-generation scripts under
`Gemini/`; those are embedded directly.  The document-store components
(LRU cache, freeze, query engine, table, storages) are exercised by the
generated tests but their implementation is not part of the repository,
so they are modelled from the specification text.
-/

/- ===================== LRU cache (spec 4.3) ===================== -/

/-- Modelled from the spec: the LRU cache of `tinydb/utils.py` (not part of
this repository's sources).  `capacity = 0` means unbounded (spec 4.3:
"absent/zero-equivalent means unbounded").  The `cache` list keeps entries in
recency order: least-recently-used first, most-recently-used last. -/
structure LRUCache (K V : Type) where
  capacity : Nat
  cache : List (K × V)

/-- First value bound to `k` in an association list, scanning left to right. -/
def findVal {K V : Type} [DecidableEq K] : List (K × V) → K → Option V
  | [], _ => none
  | (k', v) :: rest, k => if k' = k then some v else findVal rest k

/-- Remove every entry whose key is `k`. -/
def dropKey {K V : Type} [DecidableEq K] : List (K × V) → K → List (K × V)
  | [], _ => []
  | (k', v) :: rest, k => if k' = k then dropKey rest k else (k', v) :: dropKey rest k

/-- Modelled from the spec: `LRUCache.get` returns the cached value and
promotes the key to most-recently-used; on a miss it returns `none` with no
side effect on recency (spec 4.3). -/
def lruGet {K V : Type} [DecidableEq K] (c : LRUCache K V) (k : K) :
    Option V × LRUCache K V :=
  match findVal c.cache k with
  | some v => (some v, { c with cache := dropKey c.cache k ++ [(k, v)] })
  | none => (none, c)

/-- Modelled from the spec: `LRUCache.set` inserts or updates, promotes to
most-recently-used, and if the capacity is bounded and the insertion grows the
cache beyond capacity it evicts the single least-recently-used entry
(spec 4.3). -/
def lruSet {K V : Type} [DecidableEq K] (c : LRUCache K V) (k : K) (v : V) :
    LRUCache K V :=
  if c.capacity ≠ 0 ∧ c.capacity < (dropKey c.cache k ++ [(k, v)]).length then
    { c with cache := (dropKey c.cache k ++ [(k, v)]).tail }
  else
    { c with cache := dropKey c.cache k ++ [(k, v)] }

/-- Keys of the cache in recency order (least-recently-used first). -/
def lruKeys {K V : Type} (c : LRUCache K V) : List K :=
  c.cache.map Prod.fst

/-- One `get`/`set` call on an LRU cache. -/
inductive LRUOp (K V : Type) where
  | get (k : K)
  | set (k : K) (v : V)

/-- Apply one operation to the cache. -/
def lruStep {K V : Type} [DecidableEq K] (c : LRUCache K V) : LRUOp K V → LRUCache K V
  | .get k => (lruGet c k).2
  | .set k v => lruSet c k v

/-- Run a sequence of operations on a freshly constructed cache of the given
capacity. -/
def lruRun {K V : Type} [DecidableEq K] (cap : Nat) (ops : List (LRUOp K V)) :
    LRUCache K V :=
  ops.foldl lruStep ⟨cap, []⟩

/- ===================== Table search and cache (spec 4.5) ===================== -/

/-- Modelled from the spec: a query as the table sees it, a test function over
documents plus an optional structural lookup key; the query is cacheable iff
the lookup key is present (spec "Query" data model). -/
structure MQuery (Doc QKey : Type) where
  test : Doc → Bool
  lookupKey : Option QKey

/-- Modelled from the spec: the table state relevant to `search`, namely the
documents held by the storage backend, the LRU query cache, and a counter of
storage reads (the side-effect counter of the spec's "Query cache coherence"
property). -/
structure MTable (Doc QKey : Type) where
  storageDocs : List Doc
  queryCache : LRUCache QKey (List Doc)
  readCount : Nat

/-- Modelled from the spec: `Table.search` (spec 4.5).  If the query is
cacheable and present in the cache the cached result is returned unchanged
(the cache entry is promoted); otherwise the table reads the snapshot from
storage, evaluates the predicate against every document (full scan), caches
the result keyed by the query only if it is cacheable, and returns it. -/
def tableSearch {Doc QKey : Type} [DecidableEq QKey]
    (t : MTable Doc QKey) (q : MQuery Doc QKey) : List Doc × MTable Doc QKey :=
  match q.lookupKey with
  | some k =>
    match lruGet t.queryCache k with
    | (some r, c2) => (r, { t with queryCache := c2 })
    | (none, _) =>
      let r := t.storageDocs.filter q.test
      (r, { t with readCount := t.readCount + 1, queryCache := lruSet t.queryCache k r })
  | none =>
    let r := t.storageDocs.filter q.test
    (r, { t with readCount := t.readCount + 1 })

/- ===================== Table.get selectors (spec 4.5, 7) ===================== -/

/-- Error taxonomy of the table layer (spec 7): usage errors for caller
mistakes and conflict errors for duplicate document identifiers. -/
inductive TableError where
  | usageError (msg : String)
  | conflictError (msg : String)

/-- Result shape of `Table.get`: a single optional document for the `doc_id`
and `cond` forms, a list for the `doc_ids` form. -/
inductive GetResult (Doc : Type) where
  | single (d : Option Doc)
  | multiple (ds : List Doc)

/-- Modelled from the spec: `Table.get(doc_id, cond, doc_ids)` (spec 4.5):
exactly one of the three selectors must be supplied; zero or more than one is
a usage error.  The `doc_id` form returns one document or null, the `cond`
form the first match or null, the `doc_ids` form the list of found documents
in input order, skipping missing identifiers. -/
def tableGet {Doc : Type} (docs : List (Nat × Doc)) (docId : Option Nat)
    (cond : Option (Doc → Bool)) (docIds : Option (List Nat)) :
    Except TableError (GetResult Doc) :=
  match docId, cond, docIds with
  | some i, none, none => .ok (.single (findVal docs i))
  | none, some c, none =>
      .ok (.single (((docs.filter (fun p => c p.2)).head?).map Prod.snd))
  | none, none, some ids => .ok (.multiple (ids.filterMap (fun i => findVal docs i)))
  | none, none, none =>
      .error (.usageError ("You have to pass either cond or doc_id or doc_ids"))
  | _, _, _ =>
      .error (.usageError ("You cannot supply more than one of cond, doc_id and doc_ids"))

/- ===================== Python values and freeze (spec 4.2) ===================== -/

/-- Modelled from the spec: the universe of Python values the document store
handles (spec 4.2): scalars, mutable and immutable sequences, mutable and
immutable sets, and insertion-ordered mappings with string field names plus
their immutable mirror (the `FrozenDict` of `tinydb/utils.py`, which is not
part of this repository's sources). -/
inductive PyVal where
  | pynone
  | pybool (b : Bool)
  | pyint (n : Int)
  | pystr (s : String)
  | pylist (xs : List PyVal)
  | pytuple (xs : List PyVal)
  | pyset (xs : List PyVal)
  | pyfrozenset (xs : List PyVal)
  | pydict (es : List (String × PyVal))
  | pyfrozendict (es : List (String × PyVal))

mutual

/-- Modelled from the spec: `freeze` (spec 4.2) recursively converts a mapping
into the immutable association, a non-string sequence into an immutable
ordered tuple, a set into an immutable set, and returns scalars and
already-immutable values unchanged (recursing structurally through them). -/
def freeze : PyVal → PyVal
  | .pynone => .pynone
  | .pybool b => .pybool b
  | .pyint n => .pyint n
  | .pystr s => .pystr s
  | .pylist xs => .pytuple (freezeList xs)
  | .pytuple xs => .pytuple (freezeList xs)
  | .pyset xs => .pyfrozenset (freezeList xs)
  | .pyfrozenset xs => .pyfrozenset (freezeList xs)
  | .pydict es => .pyfrozendict (freezeEntries es)
  | .pyfrozendict es => .pyfrozendict (freezeEntries es)

/-- Freeze every element of a sequence or set. -/
def freezeList : List PyVal → List PyVal
  | [] => []
  | v :: rest => freeze v :: freezeList rest

/-- Freeze every value of a mapping, keeping the key order. -/
def freezeEntries : List (String × PyVal) → List (String × PyVal)
  | [] => []
  | (k, v) :: rest => (k, freeze v) :: freezeEntries rest

end

mutual

/-- Python value equality as the document store relies on it: structural on
scalars, pointwise on sequences (a list never equals a tuple), order-ignoring
on mappings and sets, where the mutable and the frozen variant of a mapping
or set compare equal when their contents do. -/
def pyEq : PyVal → PyVal → Bool
  | .pynone, .pynone => true
  | .pybool a, .pybool b => a == b
  | .pyint m, .pyint n => m == n
  | .pystr s, .pystr t => s == t
  | .pylist xs, .pylist ys => pyEqSeq xs ys
  | .pytuple xs, .pytuple ys => pyEqSeq xs ys
  | .pyset xs, .pyset ys => setLe xs ys && setGe xs ys
  | .pyset xs, .pyfrozenset ys => setLe xs ys && setGe xs ys
  | .pyfrozenset xs, .pyset ys => setLe xs ys && setGe xs ys
  | .pyfrozenset xs, .pyfrozenset ys => setLe xs ys && setGe xs ys
  | .pydict e1, .pydict e2 => entriesLe e1 e2 && entriesGe e1 e2
  | .pydict e1, .pyfrozendict e2 => entriesLe e1 e2 && entriesGe e1 e2
  | .pyfrozendict e1, .pydict e2 => entriesLe e1 e2 && entriesGe e1 e2
  | .pyfrozendict e1, .pyfrozendict e2 => entriesLe e1 e2 && entriesGe e1 e2
  | _, _ => false
termination_by a _ => (sizeOf a, 0)

/-- Pointwise equality of two sequences. -/
def pyEqSeq : List PyVal → List PyVal → Bool
  | [], [] => true
  | x :: xs, y :: ys => pyEq x y && pyEqSeq xs ys
  | _, _ => false
termination_by xs _ => (sizeOf xs, 0)

/-- Every entry of the first mapping has an equal entry in the second. -/
def entriesLe : List (String × PyVal) → List (String × PyVal) → Bool
  | [], _ => true
  | (k, v) :: rest, e2 => hasMatch k v e2 && entriesLe rest e2
termination_by e1 _ => (sizeOf e1, 0)

/-- Every entry of the second mapping has an equal entry in the first. -/
def entriesGe : List (String × PyVal) → List (String × PyVal) → Bool
  | _, [] => true
  | e1, (k, w) :: rest => hasMatchRev k w e1 && entriesGe e1 rest
termination_by e1 e2 => (sizeOf e1, sizeOf e2)

/-- Some entry of the list has key `k` and a value equal to `v` (the value
being compared appears on the left of `pyEq`). -/
def hasMatch : String → PyVal → List (String × PyVal) → Bool
  | _, _, [] => false
  | k, v, (k', w) :: rest => (k == k' && pyEq v w) || hasMatch k v rest
termination_by _ v l => (sizeOf v, sizeOf l)

/-- Some entry of the list has key `k` and a value equal to `w` (the entry's
value appears on the left of `pyEq`). -/
def hasMatchRev : String → PyVal → List (String × PyVal) → Bool
  | _, _, [] => false
  | k, w, (k', v) :: rest => (k == k' && pyEq v w) || hasMatchRev k w rest
termination_by _ _ l => (sizeOf l, 0)

/-- Some element of the list equals `x` (`x` on the left of `pyEq`). -/
def elemMatch : PyVal → List PyVal → Bool
  | _, [] => false
  | x, y :: rest => pyEq x y || elemMatch x rest
termination_by x l => (sizeOf x, sizeOf l)

/-- Some element of the list equals `y` (the element on the left of `pyEq`). -/
def elemMatchRev : PyVal → List PyVal → Bool
  | _, [] => false
  | y, x :: rest => pyEq x y || elemMatchRev y rest
termination_by _ l => (sizeOf l, 0)

/-- Every element of the first set has an equal element in the second. -/
def setLe : List PyVal → List PyVal → Bool
  | [], _ => true
  | x :: rest, ys => elemMatch x ys && setLe rest ys
termination_by xs _ => (sizeOf xs, 0)

/-- Every element of the second set has an equal element in the first. -/
def setGe : List PyVal → List PyVal → Bool
  | _, [] => true
  | xs, y :: rest => elemMatchRev y xs && setGe xs rest
termination_by xs ys => (sizeOf xs, sizeOf ys)

end

/-- Order-dependent combination of a hash list, modelling the hash of an
immutable ordered tuple. -/
def combineOrdered (hs : List Nat) : Nat :=
  hs.foldl (fun a h => a * 31 + h + 1) 7

/-- Hash of a string, modelled as a fold over its characters. -/
def strHashN (s : String) : Nat :=
  s.data.foldl (fun a c => a * 131 + c.toNat) 7

/-- Combine a key hash and a value hash into the hash of the pair. -/
def pairCombine (a b : Nat) : Nat :=
  a * 1000003 + b

mutual

/-- Modelled from the spec: Python hashing as the frozen value layer needs it
(spec 4.2).  Mutable containers are unhashable (`none`).  The hash of the
immutable association is order-independent, derived from the set of key-value
pairs, as is the hash of an immutable set; the hash of a tuple depends on the
element order. -/
def pyHash : PyVal → Option Nat
  | .pynone => some 0
  | .pybool b => some (if b then 1 else 2)
  | .pyint n => some (n.natAbs * 2 + 3)
  | .pystr s => some (strHashN s)
  | .pylist _ => none
  | .pyset _ => none
  | .pydict _ => none
  | .pytuple xs => (pyHashList xs).map combineOrdered
  | .pyfrozenset xs => (pyHashList xs).map List.sum
  | .pyfrozendict es => (pyHashEntries es).map List.sum

/-- Hashes of the elements of a sequence or set, `none` if any element is
unhashable. -/
def pyHashList : List PyVal → Option (List Nat)
  | [] => some []
  | x :: rest =>
    match pyHash x, pyHashList rest with
    | some h, some hs => some (h :: hs)
    | _, _ => none

/-- Hashes of the key-value pairs of a mapping, `none` if any value is
unhashable. -/
def pyHashEntries : List (String × PyVal) → Option (List Nat)
  | [] => some []
  | (k, v) :: rest =>
    match pyHash v, pyHashEntries rest with
    | some h, some hs => some (pairCombine (strHashN k) h :: hs)
    | _, _ => none

end

/- ===================== Query predicate engine: any (spec 4.4) ===================== -/

/-- Resolve a field path against a document by walking mappings; a missing
field or a non-mapping intermediate makes the traversal fail (spec 4.4). -/
def resolvePath (doc : PyVal) : List String → Option PyVal
  | [] => some doc
  | f :: rest =>
    match doc with
    | .pydict es =>
      match findVal es f with
      | some v => resolvePath v rest
      | none => none
    | .pyfrozendict es =>
      match findVal es f with
      | some v => resolvePath v rest
      | none => none
    | _ => none

/-- Elements of a non-string sequence; `none` for any other value. -/
def seqElems : PyVal → Option (List PyVal)
  | .pylist xs => some xs
  | .pytuple xs => some xs
  | _ => none

/-- Condition accepted by the `any`/`all` operators: another query or
callable, or a plain list of acceptable literal values (spec 4.4). -/
inductive AnyCond where
  | sub (q : PyVal → Bool)
  | items (xs : List PyVal)

/-- Modelled from the spec: the `Query().path.any(condition)` predicate
(spec 4.4): the field value must be a non-string sequence and at least one of
its elements must satisfy the condition; for a list condition an element
satisfies it when it equals (after freezing) some member of the list.  A
missing field, a non-sequence field value, an empty sequence and an empty
list condition all yield false. -/
def queryAny (path : List String) (cond : AnyCond) (doc : PyVal) : Bool :=
  match resolvePath doc path with
  | some v =>
    match seqElems v with
    | some xs =>
      match cond with
      | .sub q => xs.any q
      | .items its => xs.any (fun e => its.any (fun i => pyEq (freeze e) (freeze i)))
    | none => false
  | none => false

/- ===================== Storage backends (spec 4.1) ===================== -/

/-- JSON document model: the textual encoding of the file-based storage
backend, abstracted at the level of the parsed JSON document. -/
inductive Json where
  | jnull
  | jbool (b : Bool)
  | jnum (n : Int)
  | jstr (s : String)
  | jarr (xs : List Json)
  | jobj (fields : List (String × Json))

mutual

/-- Encode a Python value as JSON.  Tuples serialize as arrays; sets are not
JSON-serializable and encode to a junk value that `jsonable` rules out. -/
def encodeVal : PyVal → Json
  | .pynone => .jnull
  | .pybool b => .jbool b
  | .pyint n => .jnum n
  | .pystr s => .jstr s
  | .pylist xs => .jarr (encodeValList xs)
  | .pytuple xs => .jarr (encodeValList xs)
  | .pyset _ => .jnull
  | .pyfrozenset _ => .jnull
  | .pydict es => .jobj (encodeValEntries es)
  | .pyfrozendict es => .jobj (encodeValEntries es)

/-- Encode the elements of a sequence. -/
def encodeValList : List PyVal → List Json
  | [] => []
  | v :: rest => encodeVal v :: encodeValList rest

/-- Encode the entries of a mapping. -/
def encodeValEntries : List (String × PyVal) → List (String × Json)
  | [] => []
  | (k, v) :: rest => (k, encodeVal v) :: encodeValEntries rest

end

mutual

/-- Decode a JSON value back into a Python value: arrays become lists,
objects become mappings. -/
def decodeVal : Json → PyVal
  | .jnull => .pynone
  | .jbool b => .pybool b
  | .jnum n => .pyint n
  | .jstr s => .pystr s
  | .jarr xs => .pylist (decodeValList xs)
  | .jobj fs => .pydict (decodeValEntries fs)

/-- Decode the elements of a JSON array. -/
def decodeValList : List Json → List PyVal
  | [] => []
  | j :: rest => decodeVal j :: decodeValList rest

/-- Decode the fields of a JSON object. -/
def decodeValEntries : List (String × Json) → List (String × PyVal)
  | [] => []
  | (k, j) :: rest => (k, decodeVal j) :: decodeValEntries rest

end

mutual

/-- A value survives the JSON round trip exactly: scalars, lists and
mappings.  Tuples, sets and the frozen variants change representation under
serialization (the spec's "serialization-format precision"), so they are not
part of a valid snapshot. -/
def jsonable : PyVal → Bool
  | .pynone => true
  | .pybool _ => true
  | .pyint _ => true
  | .pystr _ => true
  | .pylist xs => jsonableList xs
  | .pytuple _ => false
  | .pyset _ => false
  | .pyfrozenset _ => false
  | .pydict es => jsonableEntries es
  | .pyfrozendict _ => false

/-- All elements survive the JSON round trip. -/
def jsonableList : List PyVal → Bool
  | [] => true
  | v :: rest => jsonable v && jsonableList rest

/-- All mapping values survive the JSON round trip. -/
def jsonableEntries : List (String × PyVal) → Bool
  | [] => true
  | (_, v) :: rest => jsonable v && jsonableEntries rest

end

/-- Modelled from the spec: a storage snapshot (spec data model): a mapping
from table name to a mapping from serialized document identifier to document
content. -/
abbrev Snapshot := List (String × List (String × PyVal))

/-- A snapshot is valid when every document survives the JSON round trip. -/
def validSnapshot (s : Snapshot) : Bool :=
  s.all (fun t => t.2.all (fun d => jsonable d.2))

/-- Encode a snapshot as a JSON document: an object of objects. -/
def encodeSnap (s : Snapshot) : Json :=
  .jobj (s.map (fun t => (t.1, Json.jobj (t.2.map (fun d => (d.1, encodeVal d.2))))))

/-- Decode the per-table objects of a snapshot; any non-object table value is
a decoding error. -/
def decodeTables : List (String × Json) → Option Snapshot
  | [] => some []
  | (name, .jobj fs) :: rest =>
    match decodeTables rest with
    | some ts => some ((name, fs.map (fun f => (f.1, decodeVal f.2))) :: ts)
    | none => none
  | _ => none

/-- Decode a JSON document as a snapshot; a non-object document is a decoding
error. -/
def decodeSnap : Json → Option Snapshot
  | .jobj ts => decodeTables ts
  | _ => none

/-- Modelled from the spec: the in-memory storage backend (spec 4.1): `write`
replaces the held snapshot. -/
def memWrite (s : Snapshot) (_old : Option Snapshot) : Option Snapshot :=
  some s

/-- Modelled from the spec: the in-memory storage backend's `read`: returns
the held snapshot, or `none` if nothing has been written yet. -/
def memRead (st : Option Snapshot) : Option Snapshot :=
  st

/-- Modelled from the spec: the file-based storage backend's `write`
(spec 4.1), with the textual encoding abstracted as the parsed JSON document:
it replaces the persisted representation by the encoded snapshot. -/
def jsonWrite (s : Snapshot) (_old : Option Json) : Option Json :=
  some (encodeSnap s)

/-- Modelled from the spec: the file-based storage backend's `read`: `none`
when nothing has been written, otherwise the decoded snapshot (`none` inside
means a decoding error, which the backend surfaces by raising). -/
def jsonRead (st : Option Json) : Option Snapshot :=
  match st with
  | some j => decodeSnap j
  | none => none

/- ===================== Self-referential freeze (spec 9) ===================== -/

/-- A heap node of a possibly self-referential Python object graph: a scalar,
a mutable sequence of addresses, or a mutable mapping from keys to
addresses. -/
inductive HNode where
  | hscalar (n : Int)
  | hlist (elems : List Nat)
  | hdict (entries : List (String × Nat))

/-- A frozen heap node: the frozen mirror of `HNode`, addressed by the same
address as the node it mirrors, so that an entry pointing back to the node's
own address is an aliased self-reference. -/
inductive FNode where
  | fscalar (n : Int)
  | ftuple (elems : List Nat)
  | ffrozendict (entries : List (String × Nat))

mutual

/-- Modelled from the spec: `freeze` on a possibly cyclic object graph
(spec 9, design notes): a mapping is pre-registered before its values are
frozen, so hitting a registered address returns immediately (the aliased
result), while a sequence is not registered, so a cycle through sequences
recurses until the depth budget `fuel` is exhausted (`none`, the
recursion-limit error). -/
def freezeHeap (h : List (Nat × HNode)) :
    Nat → List Nat → Nat → List (Nat × FNode) → Option (List (Nat × FNode))
  | 0, _, _, _ => none
  | fuel + 1, reg, a, out =>
    if a ∈ reg then some out
    else
      match findVal h a with
      | some (.hscalar n) => some ((a, FNode.fscalar n) :: out)
      | some (.hlist es) =>
        match freezeAddrs h fuel reg es out with
        | some out2 => some ((a, FNode.ftuple es) :: out2)
        | none => none
      | some (.hdict es) =>
        match freezeAddrs h fuel (a :: reg) (es.map Prod.snd) out with
        | some out2 => some ((a, FNode.ffrozendict es) :: out2)
        | none => none
      | none => none
termination_by fuel _ _ _ => (fuel, 0)

/-- Freeze a list of addresses in order, threading the output. -/
def freezeAddrs (h : List (Nat × HNode)) :
    Nat → List Nat → List Nat → List (Nat × FNode) → Option (List (Nat × FNode))
  | _, _, [], out => some out
  | fuel, reg, a :: rest, out =>
    match freezeHeap h fuel reg a out with
    | some out2 => freezeAddrs h fuel reg rest out2
    | none => none
termination_by fuel _ addrs _ => (fuel, addrs.length + 1)

end

/-- The heap of a self-referential list: address 0 holds a list whose sole
element is address 0. -/
def cyclicListHeap : List (Nat × HNode) :=
  [(0, HNode.hlist [0])]

/-- The heap of a self-referential mapping: address 0 holds a mapping whose
entry `a` is address 0. -/
def cyclicDictHeap : List (Nat × HNode) :=
  [(0, HNode.hdict [("a", 0)])]

/- ===================== Gemini generation scripts (src/Gemini) ===================== -/

/-- A top-level node of a parsed Python module: a function definition, a
class definition with its methods (each a name and its source segment), or
any other statement.  Definitions carry the source segment
`ast.get_source_segment` would return. -/
inductive PyDef where
  | funcDef (name : String) (src : String)
  | classDef (name : String) (methods : List (String × String)) (src : String)
  | otherNode

/-- A parsed module body, as `ast.parse(...).body`. -/
abbrev PyModule := List PyDef

/-- The external world a generation script interacts with: the
`GENAI_API_KEY` environment variable, the contents of the one source file it
reads (`none` models an I/O error), the parser (`none` models a syntax
error), and the generative model (`none` models an API error). -/
structure ScriptEnv where
  genaiKey : Option String
  sourceFile : Option String
  parse : String → Option PyModule
  modelResponse : String → Option String

/-- An observable side effect of a script run, in order of occurrence. -/
inductive Effect where
  | configureApi (key : String)
  | makeDirs (path : String)
  | readFile (path : String)
  | apiCall (prompt : String)
  | writeFile (path : String) (content : String)

/-- How a script run fails: a `ValueError` the script raises itself, or an
error propagated from file reading, parsing, or the API call. -/
inductive ScriptError where
  | valueError (msg : String)
  | ioError
  | syntaxError
  | apiError

/-- Whitespace as Python's `str.strip` sees it. -/
def isPyWS (c : Char) : Bool :=
  c = ' ' || c = '\n' || c = '\t' || c = '\r'

/-- Python's `str.strip()`: drop whitespace from both ends. -/
def pystrip (s : String) : String :=
  ⟨(((s.data.dropWhile isPyWS).reverse.dropWhile isPyWS).reverse)⟩

/-- Name of a top-level definition (empty for non-definition nodes). -/
def pyDefName : PyDef → String
  | .funcDef n _ => n
  | .classDef n _ _ => n
  | .otherNode => ""

/-- Source segment of a top-level definition. -/
def pyDefSrc : PyDef → String
  | .funcDef _ s => s
  | .classDef _ _ s => s
  | .otherNode => ""

/-- The error message of the missing-API-key check, shared by all four
scripts. -/
def apiKeyErrMsg : String :=
  "Please set the GENAI_API_KEY environment variable."

/-- The header the scripts place before each definition's generated tests. -/
def testHeader (name : String) : String :=
  "\n\n# === Tests for `" ++ name ++ "` ===\n"

/-- Send one prompt per extracted definition, in order, and accumulate the
generated blocks: each response is stripped and preceded by the header naming
the definition.  Returns the API-call effects and the accumulated text, or
the propagated API error. -/
def collectTests (env : ScriptEnv) :
    List (String × String) → List Effect × Except ScriptError String
  | [] => ([], .ok "")
  | (name, prompt) :: rest =>
    match env.modelResponse prompt with
    | none => ([], .error .apiError)
    | some resp =>
      let tailRes := collectTests env rest
      (Effect.apiCall prompt :: tailRes.1,
        match tailRes.2 with
        | .ok acc => .ok (testHeader name ++ pystrip resp ++ acc)
        | .error e => .error e)

/-- The prompt of `generate_Gemini_Utils.py` for one definition. -/
def utilsPrompt (name src : String) : String :=
  "write unit tests using pytest for the TinyDB utils module.\nGenerate tests for `"
    ++ name ++ "` based on this implementation:\n\n```python\n" ++ src

/-- The target names of `generate_Gemini_Utils.py`. -/
def utilsTargets : List String :=
  ["with_typehint", "LRUCache", "FrozenDict", "freeze"]

/-- The definitions `generate_Gemini_Utils.py` extracts: top-level function
and class definitions whose name is in `TARGETS`. -/
def utilsExtract (tree : PyModule) : List PyDef :=
  tree.filter (fun d =>
    match d with
    | .funcDef n _ => n ∈ utilsTargets
    | .classDef n _ _ => n ∈ utilsTargets
    | .otherNode => false)

/-- Embedding of `src/Gemini/generate_Gemini_Utils.py`: check the API key,
configure the API, create the output directory, read and parse
`./tinydb/utils.py`, extract the target definitions (raising `ValueError` if
none is found), query the model once per definition, and write the stripped
concatenation of all blocks to `tests/generated/test_utils_methods.py`.
Returns the effect trace and the error, if any. -/
def runUtilsScript (env : ScriptEnv) : List Effect × Option ScriptError :=
  match env.genaiKey with
  | none => ([], some (.valueError apiKeyErrMsg))
  | some key =>
    if key = "" then ([], some (.valueError apiKeyErrMsg))
    else
      let pre := [Effect.configureApi key, Effect.makeDirs ("tests/generated"),
        Effect.readFile ("./tinydb/utils.py")]
      match env.sourceFile with
      | none => ([Effect.configureApi key, Effect.makeDirs ("tests/generated")], some .ioError)
      | some text =>
        match env.parse text with
        | none => (pre, some .syntaxError)
        | some tree =>
          let defs := utilsExtract tree
          if defs.isEmpty then
            (pre, some (.valueError ("No target definitions found in utils.py")))
          else
            let res := collectTests env (defs.map (fun d => (pyDefName d, utilsPrompt (pyDefName d) (pyDefSrc d))))
            match res.2 with
            | .error e => (pre ++ res.1, some e)
            | .ok allTests =>
              (pre ++ res.1
                ++ [Effect.writeFile ("tests/generated/test_utils_methods.py") (pystrip allTests)],
               none)

/-- First class definition with the given name, as the scripts'
`next((node for node in tree.body if ...), None)`. -/
def findClass : PyModule → String → Option (List (String × String))
  | [], _ => none
  | .classDef n ms _ :: rest, cname => if n = cname then some ms else findClass rest cname
  | _ :: rest, cname => findClass rest cname

/-- Python's `name.startswith("_")` for the one-character prefix the scripts
test: true exactly when the first character is an underscore. -/
def startsWithUnderscore (s : String) : Bool :=
  match s.data with
  | [] => false
  | c :: _ => c = '_'

/-- Methods whose name does not start with an underscore. -/
def publicMethods (ms : List (String × String)) : List (String × String) :=
  ms.filter (fun m => !(startsWithUnderscore m.1))

/-- The prompt of `generate_Gemini_tests.py` for one method. -/
def testsPrompt (code : String) : String :=
  "\n Write **pytest-based** unit tests for this method from TinyDB's Table class.\n\nUse mocking for dependencies like `self._storage`. Focus on correctness and edge cases.\n\nOnly return test code. No explanation.\n\nMethod:\n"
    ++ code ++ "\n"

/-- Embedding of `src/Gemini/generate_Gemini_tests.py`: check the API key,
configure the API, create the output directory, read and parse
`./tinydb/database.py`, find the `TinyDB` class (raising `ValueError` if it
is missing), extract its public methods, query the model once per method, and
write the stripped concatenation of all blocks to
`tests/generated/test_tinydb_methods.py`. -/
def runTestsScript (env : ScriptEnv) : List Effect × Option ScriptError :=
  match env.genaiKey with
  | none => ([], some (.valueError apiKeyErrMsg))
  | some key =>
    if key = "" then ([], some (.valueError apiKeyErrMsg))
    else
      let pre := [Effect.configureApi key, Effect.makeDirs ("tests/generated"),
        Effect.readFile ("./tinydb/database.py")]
      match env.sourceFile with
      | none => ([Effect.configureApi key, Effect.makeDirs ("tests/generated")], some .ioError)
      | some text =>
        match env.parse text with
        | none => (pre, some .syntaxError)
        | some tree =>
          match findClass tree ("TinyDB") with
          | none => (pre, some (.valueError ("Class 'TinyDB' not found in ./tinydb/database.py")))
          | some ms =>
            let res := collectTests env ((publicMethods ms).map (fun m => (m.1, testsPrompt m.2)))
            match res.2 with
            | .error e => (pre ++ res.1, some e)
            | .ok allTests =>
              (pre ++ res.1
                ++ [Effect.writeFile ("tests/generated/test_tinydb_methods.py") (pystrip allTests)],
               none)

/-- The prompt of `generate_Gemini_operations.py` for one function. -/
def operationsPrompt (code : String) : String :=
  " Write pytest unit tests for this function from TinyDB's operations module:\n\nFunction:\n"
    ++ code
    ++ "\n\nTest the returned transformer: e.g. apply to a sample document (dict), call it, and assert the modified document. Cover edge cases.\nOnly return test code.\n"

/-- The definitions `generate_Gemini_operations.py` extracts: top-level
function definitions whose name does not start with an underscore. -/
def opsExtract (tree : PyModule) : List (String × String) :=
  tree.filterMap (fun d =>
    match d with
    | .funcDef n s => if startsWithUnderscore n then none else some (n, s)
    | _ => none)

/-- Embedding of `src/Gemini/generate_Gemini_operations.py`: check the API
key, configure the API, create the output directory, read and parse
`./tinydb/operations.py`, extract the public top-level functions (no error
when none is found), query the model once per function, and write the
stripped concatenation of all blocks to
`tests/generated/test_operations_methods.py`. -/
def runOperationsScript (env : ScriptEnv) : List Effect × Option ScriptError :=
  match env.genaiKey with
  | none => ([], some (.valueError apiKeyErrMsg))
  | some key =>
    if key = "" then ([], some (.valueError apiKeyErrMsg))
    else
      let pre := [Effect.configureApi key, Effect.makeDirs ("tests/generated"),
        Effect.readFile ("./tinydb/operations.py")]
      match env.sourceFile with
      | none => ([Effect.configureApi key, Effect.makeDirs ("tests/generated")], some .ioError)
      | some text =>
        match env.parse text with
        | none => (pre, some .syntaxError)
        | some tree =>
          let res := collectTests env ((opsExtract tree).map (fun m => (m.1, operationsPrompt m.2)))
          match res.2 with
          | .error e => (pre ++ res.1, some e)
          | .ok allTests =>
            (pre ++ res.1
              ++ [Effect.writeFile ("tests/generated/test_operations_methods.py") (pystrip allTests)],
             none)

/-- The prompt of `generate_Gemini_queries.py` for one method of one class. -/
def queriesPrompt (cname code : String) : String :=
  " Write pytest unit tests for this method of TinyDB's " ++ cname
    ++ " class.\n\nUse temporary files or in-memory mocks for file operations where applicable.\nOnly return test code. No explanations.\n\nMethod:\n"
    ++ code ++ "\n"

/-- The public methods of one class of `generate_Gemini_queries.py`; a
missing class contributes nothing (the script only prints a warning). -/
def classMethodsOf (tree : PyModule) (cname : String) : List (String × String) :=
  match findClass tree cname with
  | some ms => publicMethods ms
  | none => []

/-- The (class name, method name, source) triples
`generate_Gemini_queries.py` generates for, in loop order. -/
def queriesExtract (tree : PyModule) : List (String × String × String) :=
  ((classMethodsOf tree ("QueryInstance")).map (fun m => ("QueryInstance", m.1, m.2)))
    ++ ((classMethodsOf tree ("Query")).map (fun m => ("Query", m.1, m.2)))

/-- Embedding of `src/Gemini/generate_Gemini_queries.py`: check the API key,
configure the API, create the output directory, read and parse
`./tinydb/queries.py`, extract the public methods of the `QueryInstance` and
`Query` classes (skipping missing classes without error), query the model
once per method, and write the stripped concatenation of all blocks to
`tests/generated/test_query_methods.py`. -/
def runQueriesScript (env : ScriptEnv) : List Effect × Option ScriptError :=
  match env.genaiKey with
  | none => ([], some (.valueError apiKeyErrMsg))
  | some key =>
    if key = "" then ([], some (.valueError apiKeyErrMsg))
    else
      let pre := [Effect.configureApi key, Effect.makeDirs ("tests/generated"),
        Effect.readFile ("./tinydb/queries.py")]
      match env.sourceFile with
      | none => ([Effect.configureApi key, Effect.makeDirs ("tests/generated")], some .ioError)
      | some text =>
        match env.parse text with
        | none => (pre, some .syntaxError)
        | some tree =>
          let res := collectTests env
            ((queriesExtract tree).map (fun m => (m.2.1, queriesPrompt m.1 m.2.2)))
          match res.2 with
          | .error e => (pre ++ res.1, some e)
          | .ok allTests =>
            (pre ++ res.1
              ++ [Effect.writeFile ("tests/generated/test_query_methods.py") (pystrip allTests)],
             none)

/-- The block sequence a script writes, described as the claims state it: the
concatenation, over the extracted definitions in order, of the header naming
the definition followed by the stripped model response for its prompt. -/
def specBlocks (resp : String → String) : List (String × String) → String
  | [] => ""
  | (name, prompt) :: rest => testHeader name ++ pystrip (resp prompt) ++ specBlocks resp rest

/- ===================== Lemmas: association lists and the LRU cache ===================== -/

theorem dropKey_length_le {K V : Type} [DecidableEq K] (l : List (K × V)) (k : K) :
    (dropKey l k).length ≤ l.length := by
  induction l with
  | nil => simp [dropKey]
  | cons p rest ih =>
    obtain ⟨k', v⟩ := p
    by_cases h : k' = k
    · simp only [dropKey, if_pos h, List.length_cons]
      omega
    · simp only [dropKey, if_neg h, List.length_cons]
      omega

theorem dropKey_length_lt {K V : Type} [DecidableEq K] {l : List (K × V)} {k : K} {w : V}
    (hf : findVal l k = some w) : (dropKey l k).length < l.length := by
  induction l with
  | nil => simp [findVal] at hf
  | cons p rest ih =>
    obtain ⟨k', v⟩ := p
    by_cases h : k' = k
    · simp only [dropKey, if_pos h, List.length_cons]
      have := dropKey_length_le rest k
      omega
    · simp only [findVal, if_neg h] at hf
      simp only [dropKey, if_neg h, List.length_cons]
      have := ih hf
      omega

theorem dropKey_mem {K V : Type} [DecidableEq K] {l : List (K × V)} {k : K} {p : K × V}
    (hp : p ∈ dropKey l k) : p ∈ l ∧ p.1 ≠ k := by
  induction l with
  | nil => simp [dropKey] at hp
  | cons q rest ih =>
    obtain ⟨k', v⟩ := q
    by_cases h : k' = k
    · rw [dropKey, if_pos h] at hp
      exact ⟨List.mem_cons_of_mem _ (ih hp).1, (ih hp).2⟩
    · rw [dropKey, if_neg h] at hp
      rcases List.mem_cons.mp hp with heq | hmem
      · exact ⟨by simp [heq], by simp [heq, h]⟩
      · exact ⟨List.mem_cons_of_mem _ (ih hmem).1, (ih hmem).2⟩

theorem dropKey_eq_of_not_found {K V : Type} [DecidableEq K] {l : List (K × V)} {k : K}
    (hf : findVal l k = none) : dropKey l k = l := by
  induction l with
  | nil => rfl
  | cons p rest ih =>
    obtain ⟨k', v⟩ := p
    by_cases h : k' = k
    · simp [findVal, if_pos h] at hf
    · rw [findVal, if_neg h] at hf
      rw [dropKey, if_neg h, ih hf]

theorem findVal_append_last {K V : Type} [DecidableEq K] (l : List (K × V)) (k : K) (v : V)
    (h : ∀ p ∈ l, p.1 ≠ k) : findVal (l ++ [(k, v)]) k = some v := by
  induction l with
  | nil => simp [findVal]
  | cons p rest ih =>
    obtain ⟨k', w⟩ := p
    have hk : k' ≠ k := h (k', w) (by simp)
    rw [List.cons_append, findVal, if_neg hk]
    exact ih (fun q hq => h q (List.mem_cons_of_mem _ hq))

theorem lruSet_find {K V : Type} [DecidableEq K] (c : LRUCache K V) (k : K) (v : V) :
    findVal (lruSet c k v).cache k = some v := by
  have hmem : ∀ p ∈ dropKey c.cache k, p.1 ≠ k := fun p hp => (dropKey_mem hp).2
  rw [lruSet]
  by_cases hcond : c.capacity ≠ 0 ∧ c.capacity < (dropKey c.cache k ++ [(k, v)]).length
  · rw [if_pos hcond]
    rcases hdk : dropKey c.cache k with _ | ⟨p, rest⟩
    · exfalso
      rw [hdk] at hcond
      simp at hcond
    · simp only [List.cons_append, List.tail_cons]
      apply findVal_append_last
      intro q hq
      exact hmem q (by rw [hdk]; exact List.mem_cons_of_mem p hq)
  · rw [if_neg hcond]
    exact findVal_append_last _ _ _ hmem

theorem lruSet_capacity {K V : Type} [DecidableEq K] (c : LRUCache K V) (k : K) (v : V) :
    (lruSet c k v).capacity = c.capacity := by
  rw [lruSet]
  by_cases hcond : c.capacity ≠ 0 ∧ c.capacity < (dropKey c.cache k ++ [(k, v)]).length
  · rw [if_pos hcond]
  · rw [if_neg hcond]

theorem lruGet_capacity {K V : Type} [DecidableEq K] (c : LRUCache K V) (k : K) :
    ((lruGet c k).2).capacity = c.capacity := by
  rw [lruGet]
  rcases h : findVal c.cache k with _ | w <;> simp

theorem lruSet_length_le {K V : Type} [DecidableEq K] {c : LRUCache K V} {N : Nat}
    (k : K) (v : V) (hcap : c.capacity = N) (hN : 0 < N) (hlen : c.cache.length ≤ N) :
    (lruSet c k v).cache.length ≤ N := by
  have hdk := dropKey_length_le c.cache k
  rw [lruSet]
  by_cases hcond : c.capacity ≠ 0 ∧ c.capacity < (dropKey c.cache k ++ [(k, v)]).length
  · rw [if_pos hcond]
    simp only [List.length_tail, List.length_append, List.length_cons, List.length_nil]
    omega
  · rw [if_neg hcond]
    rw [hcap] at hcond
    simp only [List.length_append, List.length_cons, List.length_nil]
    rcases Decidable.not_and_iff_or_not.mp hcond with h0 | hle
    · omega
    · simp only [not_lt, List.length_append, List.length_cons, List.length_nil] at hle
      omega

theorem lruGet_length_le {K V : Type} [DecidableEq K] (c : LRUCache K V) (k : K) :
    ((lruGet c k).2).cache.length ≤ c.cache.length := by
  rw [lruGet]
  rcases h : findVal c.cache k with _ | w
  · simp
  · simp only [List.length_append, List.length_cons, List.length_nil]
    have := dropKey_length_lt h
    omega

theorem lruStep_invariant {K V : Type} [DecidableEq K] {c : LRUCache K V} {N : Nat}
    (op : LRUOp K V) (hcap : c.capacity = N) (hN : 0 < N) (hlen : c.cache.length ≤ N) :
    (lruStep c op).capacity = N ∧ (lruStep c op).cache.length ≤ N := by
  cases op with
  | get k =>
    refine ⟨by rw [lruStep, lruGet_capacity, hcap], ?_⟩
    exact le_trans (lruGet_length_le c k) hlen
  | set k v =>
    exact ⟨by rw [lruStep, lruSet_capacity, hcap], lruSet_length_le k v hcap hN hlen⟩

theorem lruFoldl_invariant {K V : Type} [DecidableEq K] {N : Nat} (hN : 0 < N) :
    ∀ (ops : List (LRUOp K V)) (c : LRUCache K V),
      c.capacity = N → c.cache.length ≤ N →
      (ops.foldl lruStep c).capacity = N ∧ (ops.foldl lruStep c).cache.length ≤ N := by
  intro ops
  induction ops with
  | nil => intro c hcap hlen; exact ⟨hcap, hlen⟩
  | cons op rest ih =>
    intro c hcap hlen
    have hstep := lruStep_invariant op hcap hN hlen
    exact ih (lruStep c op) hstep.1 hstep.2

theorem lruSet_evicts_head {K V : Type} [DecidableEq K] {c : LRUCache K V} {N : Nat}
    (k : K) (v : V) (hcap : c.capacity = N) (hN : 0 < N) (hfull : c.cache.length = N)
    (hnew : findVal c.cache k = none) :
    lruKeys (lruSet c k v) = (lruKeys c).tail ++ [k] := by
  have hdk : dropKey c.cache k = c.cache := dropKey_eq_of_not_found hnew
  have hcond : c.capacity ≠ 0 ∧ c.capacity < (dropKey c.cache k ++ [(k, v)]).length := by
    constructor
    · omega
    · rw [hdk]
      simp only [List.length_append, List.length_cons, List.length_nil]
      omega
  rw [lruSet, if_pos hcond, hdk]
  rcases hc : c.cache with _ | ⟨p, rest⟩
  · rw [hc] at hfull
    simp at hfull
    omega
  · simp only [lruKeys, hc]
    simp

theorem lruSet_promotes {K V : Type} [DecidableEq K] (c : LRUCache K V) (k : K) (v : V) :
    (lruSet c k v).cache.getLast? = some (k, v) := by
  rw [lruSet]
  by_cases hcond : c.capacity ≠ 0 ∧ c.capacity < (dropKey c.cache k ++ [(k, v)]).length
  · rw [if_pos hcond]
    rcases hdk : dropKey c.cache k with _ | ⟨p, rest⟩
    · exfalso
      rw [hdk] at hcond
      simp at hcond
    · simp only [List.cons_append, List.tail_cons]
      rw [List.getLast?_append_cons]
      rfl
  · rw [if_neg hcond]
    show (dropKey c.cache k ++ [(k, v)]).getLast? = some (k, v)
    rw [List.getLast?_append_cons]
    rfl

theorem lruGet_promotes {K V : Type} [DecidableEq K] (c : LRUCache K V) (k : K) (w : V)
    (hf : findVal c.cache k = some w) :
    (lruGet c k).1 = some w ∧ ((lruGet c k).2).cache.getLast? = some (k, w) := by
  rw [lruGet, hf]
  refine ⟨rfl, ?_⟩
  show (dropKey c.cache k ++ [(k, w)]).getLast? = some (k, w)
  rw [List.getLast?_append_cons]
  rfl

/-- C1: for every sequence of `set` and `get` operations on an LRU cache
constructed with positive capacity `N`, the number of stored entries never
exceeds `N`; when an insertion of a fresh key finds the cache full, exactly
the least-recently-touched entry (the head of the recency order) is evicted;
every `get` or `set` of a present key promotes that key to
most-recently-used (the last position of the recency order); and in the
concrete capacity-2 scenario set a=1, set b=2, get a, set c=3 (with a, b, c
rendered as keys 0, 1, 2), key b is evicted while a and c remain with their
values. -/
theorem C1_lru_cache_invariant {K V : Type} [DecidableEq K] (N : Nat) (hN : 0 < N) :
    (∀ ops : List (LRUOp K V), (lruRun N ops).cache.length ≤ N)
    ∧ (∀ (c : LRUCache K V) (k : K) (v : V),
        c.capacity = N → c.cache.length = N → findVal c.cache k = none →
        lruKeys (lruSet c k v) = (lruKeys c).tail ++ [k])
    ∧ (∀ (c : LRUCache K V) (k : K) (v : V),
        (lruSet c k v).cache.getLast? = some (k, v))
    ∧ (∀ (c : LRUCache K V) (k : K) (w : V), findVal c.cache k = some w →
        (lruGet c k).1 = some w ∧ ((lruGet c k).2).cache.getLast? = some (k, w))
    ∧ (lruKeys (lruRun 2 ([.set 0 1, .set 1 2, .get 0, .set 2 3] : List (LRUOp Nat Nat)))
          = [0, 2]
        ∧ findVal (lruRun 2 ([.set 0 1, .set 1 2, .get 0, .set 2 3] : List (LRUOp Nat Nat))).cache 0
          = some 1
        ∧ findVal (lruRun 2 ([.set 0 1, .set 1 2, .get 0, .set 2 3] : List (LRUOp Nat Nat))).cache 2
          = some 3
        ∧ findVal (lruRun 2 ([.set 0 1, .set 1 2, .get 0, .set 2 3] : List (LRUOp Nat Nat))).cache 1
          = none) := by
  refine ⟨?_, ?_, ?_, ?_, by decide⟩
  · intro ops
    exact (lruFoldl_invariant hN ops ⟨N, []⟩ rfl (by simp)).2
  · intro c k v hcap hfull hnew
    exact lruSet_evicts_head k v hcap hN hfull hnew
  · intro c k v
    exact lruSet_promotes c k v
  · intro c k w hf
    exact lruGet_promotes c k w hf

/-- Witness for C1: the eviction clause applied to a concrete full cache of
capacity 2 holding keys 5 and 6; setting the fresh key 7 evicts the
least-recently-used key 5. -/
theorem C1_lru_cache_invariant_witness :
    lruKeys (lruSet (LRUCache.mk 2 [(5, 10), (6, 11)]) 7 12)
      = (lruKeys (LRUCache.mk 2 [(5, 10), (6, 11)])).tail ++ [7] :=
  (C1_lru_cache_invariant 2 (by decide)).2.1 (LRUCache.mk 2 [(5, 10), (6, 11)]) 7 12
    rfl rfl (by decide)

/-- C5: `Table.get` enforces selector exclusivity: supplying none of
`doc_id`, `cond`, `doc_ids` is a usage error, and supplying more than one of
them is a usage error too, both failures being of the same usage-error
class (`TableError.usageError`). -/
theorem C5_get_selector_exclusivity {Doc : Type} (docs : List (Nat × Doc)) (i : Nat)
    (c : Doc → Bool) (ids : List Nat) :
    (∃ m, tableGet docs none none none = .error (.usageError m))
    ∧ (∃ m, tableGet docs (some i) (some c) none = .error (.usageError m))
    ∧ (∃ m, tableGet docs (some i) none (some ids) = .error (.usageError m))
    ∧ (∃ m, tableGet docs none (some c) (some ids) = .error (.usageError m))
    ∧ (∃ m, tableGet docs (some i) (some c) (some ids) = .error (.usageError m)) :=
  ⟨⟨_, rfl⟩, ⟨_, rfl⟩, ⟨_, rfl⟩, ⟨_, rfl⟩, ⟨_, rfl⟩⟩

theorem findVal_dropKey_append {K V : Type} [DecidableEq K] (l : List (K × V)) (k : K) (v : V) :
    findVal (dropKey l k ++ [(k, v)]) k = some v :=
  findVal_append_last _ _ _ (fun _ hp => (dropKey_mem hp).2)

theorem tableSearch_hit {Doc QKey : Type} [DecidableEq QKey]
    {t : MTable Doc QKey} {q : MQuery Doc QKey} {k : QKey} {r : List Doc}
    (hk : q.lookupKey = some k) (hf : findVal t.queryCache.cache k = some r) :
    tableSearch t q
      = (r, { t with queryCache :=
          { t.queryCache with cache := dropKey t.queryCache.cache k ++ [(k, r)] } }) := by
  simp only [tableSearch, hk, lruGet, hf]

theorem tableSearch_miss {Doc QKey : Type} [DecidableEq QKey]
    {t : MTable Doc QKey} {q : MQuery Doc QKey} {k : QKey}
    (hk : q.lookupKey = some k) (hf : findVal t.queryCache.cache k = none) :
    tableSearch t q
      = (t.storageDocs.filter q.test,
         { t with readCount := t.readCount + 1,
                  queryCache := lruSet t.queryCache k (t.storageDocs.filter q.test) }) := by
  simp only [tableSearch, hk, lruGet, hf]

theorem tableSearch_nokey {Doc QKey : Type} [DecidableEq QKey]
    {t : MTable Doc QKey} {q : MQuery Doc QKey} (hk : q.lookupKey = none) :
    tableSearch t q
      = (t.storageDocs.filter q.test, { t with readCount := t.readCount + 1 }) := by
  simp only [tableSearch, hk]

/-- C2: for a cacheable query, searching twice with no intervening mutation
returns identical result lists and the second call performs no storage read;
a query already cached returns the cached result unchanged without reading
storage; a cache miss evaluates the predicate against every document by full
scan, reads storage once and caches the result under the query's key; and a
non-cacheable query always scans and is never inserted into the cache. -/
theorem C2_search_cache_coherence {Doc QKey : Type} [DecidableEq QKey]
    (t : MTable Doc QKey) (q : MQuery Doc QKey) (k : QKey) (hk : q.lookupKey = some k) :
    ((tableSearch (tableSearch t q).2 q).1 = (tableSearch t q).1
      ∧ (tableSearch (tableSearch t q).2 q).2.readCount = (tableSearch t q).2.readCount
      ∧ (tableSearch (tableSearch t q).2 q).2.storageDocs = (tableSearch t q).2.storageDocs)
    ∧ (∀ r, findVal t.queryCache.cache k = some r →
        (tableSearch t q).1 = r ∧ (tableSearch t q).2.readCount = t.readCount
          ∧ (tableSearch t q).2.storageDocs = t.storageDocs)
    ∧ (findVal t.queryCache.cache k = none →
        (tableSearch t q).1 = t.storageDocs.filter q.test
          ∧ (tableSearch t q).2.readCount = t.readCount + 1
          ∧ findVal ((tableSearch t q).2.queryCache.cache) k = some ((tableSearch t q).1))
    ∧ (∀ q' : MQuery Doc QKey, q'.lookupKey = none →
        (tableSearch t q').1 = t.storageDocs.filter q'.test
          ∧ (tableSearch t q').2.queryCache = t.queryCache
          ∧ (tableSearch t q').2.readCount = t.readCount + 1) := by
  refine ⟨?_, ?_, ?_, ?_⟩
  · rcases hf : findVal t.queryCache.cache k with _ | r
    · rw [tableSearch_miss hk hf]
      have hf2 : findVal (lruSet t.queryCache k (t.storageDocs.filter q.test)).cache k
          = some (t.storageDocs.filter q.test) := lruSet_find _ _ _
      rw [tableSearch_hit hk hf2]
      exact ⟨rfl, rfl, rfl⟩
    · rw [tableSearch_hit hk hf]
      have hf2 : findVal (dropKey t.queryCache.cache k ++ [(k, r)]) k = some r :=
        findVal_dropKey_append _ _ _
      rw [tableSearch_hit hk hf2]
      exact ⟨rfl, rfl, rfl⟩
  · intro r hf
    rw [tableSearch_hit hk hf]
    exact ⟨rfl, rfl, rfl⟩
  · intro hf
    rw [tableSearch_miss hk hf]
    exact ⟨rfl, rfl, lruSet_find _ _ _⟩
  · intro q' hk'
    rw [tableSearch_nokey hk']
    exact ⟨rfl, rfl, rfl⟩

/-- Witness for C2: a concrete three-document table with an empty cache and
the cacheable query testing for the value 1; the repeated search returns the
same result and performs no further storage read. -/
theorem C2_search_cache_coherence_witness :
    (tableSearch (tableSearch (MTable.mk [1, 2, 3] (LRUCache.mk 10 []) 0)
          (MQuery.mk (fun d => d == 1) (some 0))).2
        (MQuery.mk (fun d => d == 1) (some 0))).1
      = (tableSearch (MTable.mk [1, 2, 3] (LRUCache.mk 10 []) 0)
          (MQuery.mk (fun d => d == 1) (some 0))).1
    ∧ (tableSearch (tableSearch (MTable.mk [1, 2, 3] (LRUCache.mk 10 []) 0)
          (MQuery.mk (fun d => d == 1) (some 0))).2
        (MQuery.mk (fun d => d == 1) (some 0))).2.readCount
      = (tableSearch (MTable.mk [1, 2, 3] (LRUCache.mk 10 []) 0)
          (MQuery.mk (fun d => d == 1) (some 0))).2.readCount :=
  ⟨((C2_search_cache_coherence (MTable.mk [1, 2, 3] (LRUCache.mk 10 []) 0)
      (MQuery.mk (fun d => d == 1) (some 0)) 0 rfl).1).1,
   ((C2_search_cache_coherence (MTable.mk [1, 2, 3] (LRUCache.mk 10 []) 0)
      (MQuery.mk (fun d => d == 1) (some 0)) 0 rfl).1).2.1⟩

/- ===================== Lemmas: freeze, equality and hashing ===================== -/

mutual

theorem freeze_freeze : ∀ v : PyVal, freeze (freeze v) = freeze v
  | .pynone => rfl
  | .pybool _ => rfl
  | .pyint _ => rfl
  | .pystr _ => rfl
  | .pylist xs => by simp only [freeze]; rw [freezeList_freezeList xs]
  | .pytuple xs => by simp only [freeze]; rw [freezeList_freezeList xs]
  | .pyset xs => by simp only [freeze]; rw [freezeList_freezeList xs]
  | .pyfrozenset xs => by simp only [freeze]; rw [freezeList_freezeList xs]
  | .pydict es => by simp only [freeze]; rw [freezeEntries_freezeEntries es]
  | .pyfrozendict es => by simp only [freeze]; rw [freezeEntries_freezeEntries es]

theorem freezeList_freezeList : ∀ xs : List PyVal, freezeList (freezeList xs) = freezeList xs
  | [] => rfl
  | v :: rest => by
    simp only [freezeList]
    rw [freeze_freeze v, freezeList_freezeList rest]

theorem freezeEntries_freezeEntries :
    ∀ es : List (String × PyVal), freezeEntries (freezeEntries es) = freezeEntries es
  | [] => rfl
  | (k, v) :: rest => by
    simp only [freezeEntries]
    rw [freeze_freeze v, freezeEntries_freezeEntries rest]

end

theorem hasMatch_of_mem {k : String} {w v : PyVal} :
    ∀ {l : List (String × PyVal)}, (k, w) ∈ l → pyEq v w = true → hasMatch k v l = true := by
  intro l
  induction l with
  | nil => intro h; simp at h
  | cons p rest ih =>
    intro hmem hpy
    obtain ⟨k', w'⟩ := p
    rw [hasMatch]
    rcases List.mem_cons.mp hmem with heq | hmem'
    · obtain ⟨hk, hw⟩ := Prod.mk.injEq .. ▸ heq
      subst hk
      subst hw
      simp [hpy]
    · rw [ih hmem' hpy]
      simp

theorem hasMatchRev_of_mem {k : String} {v w : PyVal} :
    ∀ {l : List (String × PyVal)}, (k, v) ∈ l → pyEq v w = true → hasMatchRev k w l = true := by
  intro l
  induction l with
  | nil => intro h; simp at h
  | cons p rest ih =>
    intro hmem hpy
    obtain ⟨k', v'⟩ := p
    rw [hasMatchRev]
    rcases List.mem_cons.mp hmem with heq | hmem'
    · obtain ⟨hk, hv⟩ := Prod.mk.injEq .. ▸ heq
      subst hk
      subst hv
      simp [hpy]
    · rw [ih hmem' hpy]
      simp

theorem entriesLe_of : ∀ {e1 e2 : List (String × PyVal)},
    (∀ p ∈ e1, p ∈ e2 ∧ pyEq p.2 p.2 = true) → entriesLe e1 e2 = true := by
  intro e1
  induction e1 with
  | nil => intro e2 _; rw [entriesLe]
  | cons p rest ih =>
    intro e2 h
    obtain ⟨k, v⟩ := p
    rw [entriesLe]
    have hp := h (k, v) (List.mem_cons_self _ _)
    rw [hasMatch_of_mem hp.1 hp.2, ih (fun q hq => h q (List.mem_cons_of_mem _ hq))]
    rfl

theorem entriesGe_of : ∀ {e2 e1 : List (String × PyVal)},
    (∀ p ∈ e2, p ∈ e1 ∧ pyEq p.2 p.2 = true) → entriesGe e1 e2 = true := by
  intro e2
  induction e2 with
  | nil => intro e1 _; rw [entriesGe]
  | cons p rest ih =>
    intro e1 h
    obtain ⟨k, w⟩ := p
    rw [entriesGe]
    have hp := h (k, w) (List.mem_cons_self _ _)
    rw [hasMatchRev_of_mem hp.1 hp.2, ih (fun q hq => h q (List.mem_cons_of_mem _ hq))]
    rfl

theorem elemMatch_of_mem {x y : PyVal} :
    ∀ {ys : List PyVal}, y ∈ ys → pyEq x y = true → elemMatch x ys = true := by
  intro ys
  induction ys with
  | nil => intro h; simp at h
  | cons z rest ih =>
    intro hmem hpy
    rw [elemMatch]
    rcases List.mem_cons.mp hmem with heq | hmem'
    · subst heq
      simp [hpy]
    · rw [ih hmem' hpy]
      simp

theorem elemMatchRev_of_mem {x y : PyVal} :
    ∀ {xs : List PyVal}, x ∈ xs → pyEq x y = true → elemMatchRev y xs = true := by
  intro xs
  induction xs with
  | nil => intro h; simp at h
  | cons z rest ih =>
    intro hmem hpy
    rw [elemMatchRev]
    rcases List.mem_cons.mp hmem with heq | hmem'
    · subst heq
      simp [hpy]
    · rw [ih hmem' hpy]
      simp

theorem setLe_of : ∀ {xs ys : List PyVal},
    (∀ x ∈ xs, x ∈ ys ∧ pyEq x x = true) → setLe xs ys = true := by
  intro xs
  induction xs with
  | nil => intro ys _; rw [setLe]
  | cons x rest ih =>
    intro ys h
    rw [setLe]
    have hx := h x (List.mem_cons_self _ _)
    rw [elemMatch_of_mem hx.1 hx.2, ih (fun z hz => h z (List.mem_cons_of_mem _ hz))]
    rfl

theorem setGe_of : ∀ {ys xs : List PyVal},
    (∀ y ∈ ys, y ∈ xs ∧ pyEq y y = true) → setGe xs ys = true := by
  intro ys
  induction ys with
  | nil => intro xs _; rw [setGe]
  | cons y rest ih =>
    intro xs h
    rw [setGe]
    have hy := h y (List.mem_cons_self _ _)
    rw [elemMatchRev_of_mem hy.1 hy.2, ih (fun z hz => h z (List.mem_cons_of_mem _ hz))]
    rfl

theorem pyEqSeq_of : ∀ {xs : List PyVal},
    (∀ x ∈ xs, pyEq x x = true) → pyEqSeq xs xs = true := by
  intro xs
  induction xs with
  | nil => intro _; rw [pyEqSeq]
  | cons x rest ih =>
    intro h
    rw [pyEqSeq, h x (List.mem_cons_self _ _), ih (fun z hz => h z (List.mem_cons_of_mem _ hz))]
    rfl

theorem pyEq_refl_sized : ∀ n : Nat, ∀ v : PyVal, sizeOf v ≤ n → pyEq v v = true := by
  intro n
  induction n with
  | zero =>
    intro v hv
    exfalso
    cases v <;> simp_arith at hv
  | succ n ih =>
    intro v hv
    cases v with
    | pynone => simp [pyEq]
    | pybool b => simp [pyEq]
    | pyint m => simp [pyEq]
    | pystr s => simp [pyEq]
    | pylist xs =>
      simp only [pyEq]
      apply pyEqSeq_of
      intro x hx
      apply ih
      have h1 := List.sizeOf_lt_of_mem hx
      simp_arith at hv
      omega
    | pytuple xs =>
      simp only [pyEq]
      apply pyEqSeq_of
      intro x hx
      apply ih
      have h1 := List.sizeOf_lt_of_mem hx
      simp_arith at hv
      omega
    | pyset xs =>
      simp only [pyEq]
      rw [setLe_of, setGe_of]
      · rfl
      all_goals
        intro x hx
        refine ⟨hx, ih x ?_⟩
        have h1 := List.sizeOf_lt_of_mem hx
        simp_arith at hv
        omega
    | pyfrozenset xs =>
      simp only [pyEq]
      rw [setLe_of, setGe_of]
      · rfl
      all_goals
        intro x hx
        refine ⟨hx, ih x ?_⟩
        have h1 := List.sizeOf_lt_of_mem hx
        simp_arith at hv
        omega
    | pydict es =>
      simp only [pyEq]
      rw [entriesLe_of, entriesGe_of]
      · rfl
      all_goals
        intro p hp
        refine ⟨hp, ih p.2 ?_⟩
        have h1 := List.sizeOf_lt_of_mem hp
        have h2 : sizeOf p.2 < sizeOf p := by
          obtain ⟨a, b⟩ := p
          simp_arith
        simp_arith at hv
        omega
    | pyfrozendict es =>
      simp only [pyEq]
      rw [entriesLe_of, entriesGe_of]
      · rfl
      all_goals
        intro p hp
        refine ⟨hp, ih p.2 ?_⟩
        have h1 := List.sizeOf_lt_of_mem hp
        have h2 : sizeOf p.2 < sizeOf p := by
          obtain ⟨a, b⟩ := p
          simp_arith
        simp_arith at hv
        omega

theorem pyEq_refl (v : PyVal) : pyEq v v = true :=
  pyEq_refl_sized (sizeOf v) v le_rfl

theorem freezeEntries_map : ∀ es : List (String × PyVal),
    freezeEntries es = es.map (fun p => (p.1, freeze p.2))
  | [] => rfl
  | (k, v) :: rest => by
    rw [freezeEntries, freezeEntries_map rest]
    rfl

theorem pyHashEntries_perm {l1 l2 : List (String × PyVal)} (h : l1.Perm l2) :
    (pyHashEntries l1).map List.sum = (pyHashEntries l2).map List.sum := by
  induction h with
  | nil => rfl
  | cons x h ih =>
    obtain ⟨k, v⟩ := x
    rename_i t1 t2
    cases hv : pyHash v with
    | none => simp [pyHashEntries, hv]
    | some hh =>
      cases h1 : pyHashEntries t1 with
      | none =>
        rw [h1] at ih
        cases h2 : pyHashEntries t2 with
        | none => simp [pyHashEntries, hv, h1, h2]
        | some hs2 => rw [h2] at ih; simp at ih
      | some hs1 =>
        rw [h1] at ih
        cases h2 : pyHashEntries t2 with
        | none => rw [h2] at ih; simp at ih
        | some hs2 =>
          rw [h2] at ih
          simp [pyHashEntries, hv, h1, h2, List.sum_cons] at ih ⊢
          omega
  | swap x y l =>
    obtain ⟨kx, vx⟩ := x
    obtain ⟨ky, vy⟩ := y
    cases hx : pyHash vx <;> cases hy : pyHash vy <;> cases hl : pyHashEntries l <;>
      simp [pyHashEntries, hx, hy, hl, List.sum_cons] <;> omega
  | trans h1 h2 ih1 ih2 => exact ih1.trans ih2

/-- C3: `freeze` is idempotent, both structurally and under Python equality,
and freezing two mappings whose entry lists are permutations of each other
(equal content, different key insertion order) yields frozen values that are
equal under Python equality and have equal hashes, the frozen mapping's hash
being order-independent. -/
theorem C3_freeze_idempotent_order_independent :
    (∀ v : PyVal, freeze (freeze v) = freeze v)
    ∧ (∀ v : PyVal, pyEq (freeze (freeze v)) (freeze v) = true)
    ∧ (∀ e1 e2 : List (String × PyVal), e1.Perm e2 →
        pyEq (freeze (PyVal.pydict e1)) (freeze (PyVal.pydict e2)) = true
          ∧ pyHash (freeze (PyVal.pydict e1)) = pyHash (freeze (PyVal.pydict e2))) := by
  refine ⟨freeze_freeze, ?_, ?_⟩
  · intro v
    rw [freeze_freeze v]
    exact pyEq_refl _
  · intro e1 e2 hp
    have hperm : (freezeEntries e1).Perm (freezeEntries e2) := by
      rw [freezeEntries_map, freezeEntries_map]
      exact hp.map _
    constructor
    · have hle : entriesLe (freezeEntries e1) (freezeEntries e2) = true :=
        entriesLe_of (fun p hp' => ⟨hperm.subset hp', pyEq_refl _⟩)
      have hge : entriesGe (freezeEntries e1) (freezeEntries e2) = true :=
        entriesGe_of (fun p hp' => ⟨hperm.symm.subset hp', pyEq_refl _⟩)
      simp [freeze, pyEq, hle, hge]
    · simp only [freeze, pyHash]
      exact pyHashEntries_perm hperm

/-- Witness for C3: freezing the two-entry mapping a=1, b=[1,2] and its
reversed-order variant yields equal frozen values with equal hashes. -/
theorem C3_freeze_idempotent_order_independent_witness :
    pyEq
        (freeze (PyVal.pydict [("a", PyVal.pyint 1),
          ("b", PyVal.pylist [PyVal.pyint 1, PyVal.pyint 2])]))
        (freeze (PyVal.pydict [("b", PyVal.pylist [PyVal.pyint 1, PyVal.pyint 2]),
          ("a", PyVal.pyint 1)])) = true
    ∧ pyHash (freeze (PyVal.pydict [("a", PyVal.pyint 1),
          ("b", PyVal.pylist [PyVal.pyint 1, PyVal.pyint 2])]))
      = pyHash (freeze (PyVal.pydict [("b", PyVal.pylist [PyVal.pyint 1, PyVal.pyint 2]),
          ("a", PyVal.pyint 1)])) :=
  C3_freeze_idempotent_order_independent.2.2
    [("a", PyVal.pyint 1), ("b", PyVal.pylist [PyVal.pyint 1, PyVal.pyint 2])]
    [("b", PyVal.pylist [PyVal.pyint 1, PyVal.pyint 2]), ("a", PyVal.pyint 1)]
    (List.Perm.swap _ _ _)

/-- C6: the predicate `Query().f1.any(items)` with a list condition is true
on a document exactly when field f1 holds a non-string sequence containing an
element equal (after freezing) to a member of `items`; it is false for an
empty sequence, an absent field, a non-sequence field value, and an empty
condition list; concretely it is true on a document where f1 is [3,4,5] with
items [1,2,3], false when f1 is [], and false on the empty document. -/
theorem C6_query_any_with_list :
    (∀ (doc v : PyVal) (xs items : List PyVal),
        resolvePath doc ["f1"] = some v → seqElems v = some xs →
        (queryAny ["f1"] (.items items) doc = true
          ↔ ∃ e ∈ xs, ∃ i ∈ items, pyEq (freeze e) (freeze i) = true))
    ∧ (∀ (doc v : PyVal) (items : List PyVal),
        resolvePath doc ["f1"] = some v → seqElems v = some [] →
        queryAny ["f1"] (.items items) doc = false)
    ∧ (∀ (doc : PyVal) (items : List PyVal),
        resolvePath doc ["f1"] = none → queryAny ["f1"] (.items items) doc = false)
    ∧ (∀ (doc v : PyVal) (items : List PyVal),
        resolvePath doc ["f1"] = some v → seqElems v = none →
        queryAny ["f1"] (.items items) doc = false)
    ∧ (∀ (path : List String) (doc : PyVal), queryAny path (.items []) doc = false)
    ∧ (queryAny ["f1"] (.items [PyVal.pyint 1, PyVal.pyint 2, PyVal.pyint 3])
          (PyVal.pydict [("f1", PyVal.pylist [PyVal.pyint 3, PyVal.pyint 4, PyVal.pyint 5])])
        = true
      ∧ queryAny ["f1"] (.items [PyVal.pyint 1, PyVal.pyint 2, PyVal.pyint 3])
          (PyVal.pydict [("f1", PyVal.pylist [])]) = false
      ∧ queryAny ["f1"] (.items [PyVal.pyint 1, PyVal.pyint 2, PyVal.pyint 3])
          (PyVal.pydict []) = false) := by
  refine ⟨?_, ?_, ?_, ?_, ?_, ?_, ?_, ?_⟩
  · intro doc v xs items h1 h2
    simp [queryAny, h1, h2, List.any_eq_true]
  · intro doc v items h1 h2
    simp [queryAny, h1, h2]
  · intro doc items h1
    simp [queryAny, h1]
  · intro doc v items h1 h2
    simp [queryAny, h1, h2]
  · intro path doc
    rcases hr : resolvePath doc path with _ | v
    · simp [queryAny, hr]
    · rcases hs : seqElems v with _ | xs
      · simp [queryAny, hr, hs]
      · simp [queryAny, hr, hs]
  · simp [queryAny, resolvePath, findVal, seqElems, freeze, freezeList, pyEq]
  · simp [queryAny, resolvePath, findVal, seqElems]
  · simp [queryAny, resolvePath, findVal]

/-- Witness for C6: the absent-field clause applied to the empty document. -/
theorem C6_query_any_with_list_witness :
    queryAny ["f1"] (AnyCond.items [PyVal.pyint 1]) (PyVal.pydict []) = false :=
  C6_query_any_with_list.2.2.1 (PyVal.pydict []) [PyVal.pyint 1] rfl

mutual

theorem decodeVal_encodeVal : ∀ v : PyVal, jsonable v = true → decodeVal (encodeVal v) = v
  | .pynone, _ => rfl
  | .pybool _, _ => rfl
  | .pyint _, _ => rfl
  | .pystr _, _ => rfl
  | .pylist xs, h => by
    simp only [encodeVal, decodeVal]
    rw [decodeValList_encodeValList xs (by rw [jsonable] at h; exact h)]
  | .pytuple _, h => by simp [jsonable] at h
  | .pyset _, h => by simp [jsonable] at h
  | .pyfrozenset _, h => by simp [jsonable] at h
  | .pydict es, h => by
    simp only [encodeVal, decodeVal]
    rw [decodeValEntries_encodeValEntries es (by rw [jsonable] at h; exact h)]
  | .pyfrozendict _, h => by simp [jsonable] at h

theorem decodeValList_encodeValList :
    ∀ xs : List PyVal, jsonableList xs = true → decodeValList (encodeValList xs) = xs
  | [], _ => rfl
  | v :: rest, h => by
    rw [jsonableList, Bool.and_eq_true] at h
    simp only [encodeValList, decodeValList]
    rw [decodeVal_encodeVal v h.1, decodeValList_encodeValList rest h.2]

theorem decodeValEntries_encodeValEntries :
    ∀ es : List (String × PyVal), jsonableEntries es = true →
      decodeValEntries (encodeValEntries es) = es
  | [], _ => rfl
  | (k, v) :: rest, h => by
    rw [jsonableEntries, Bool.and_eq_true] at h
    simp only [encodeValEntries, decodeValEntries]
    rw [decodeVal_encodeVal v h.1, decodeValEntries_encodeValEntries rest h.2]

end

theorem decodeDocs_encode : ∀ docs : List (String × PyVal),
    docs.all (fun d => jsonable d.2) = true →
    (docs.map (fun d => (d.1, encodeVal d.2))).map (fun f => (f.1, decodeVal f.2)) = docs := by
  intro docs
  induction docs with
  | nil => intro _; rfl
  | cons d rest ih =>
    intro h
    rw [List.all_cons, Bool.and_eq_true] at h
    simp only [List.map_cons]
    rw [decodeVal_encodeVal d.2 h.1, ih h.2]

theorem decodeTables_encode : ∀ s : Snapshot, validSnapshot s = true →
    decodeTables (s.map (fun t =>
      (t.1, Json.jobj (t.2.map (fun d => (d.1, encodeVal d.2)))))) = some s := by
  intro s
  induction s with
  | nil => intro _; rfl
  | cons t rest ih =>
    intro h
    rw [validSnapshot, List.all_cons, Bool.and_eq_true] at h
    simp only [List.map_cons, decodeTables]
    rw [ih h.2, decodeDocs_encode t.2 h.1]

/-- C4: writing a valid snapshot and then reading returns an equal snapshot,
for both concrete storage backends: the in-memory backend and the file-based
backend with its textual (JSON) encoding; validity restricts document values
to those that survive the serialization format exactly (the claim's "modulo
serialization-format precision"). -/
theorem C4_storage_roundtrip (s : Snapshot) (st1 : Option Snapshot) (st2 : Option Json)
    (h : validSnapshot s = true) :
    memRead (memWrite s st1) = some s ∧ jsonRead (jsonWrite s st2) = some s := by
  refine ⟨rfl, ?_⟩
  simp only [jsonWrite, jsonRead, encodeSnap, decodeSnap]
  exact decodeTables_encode s h

/-- Witness for C4: the snapshot holding one table `_default` with one
document round-trips through both backends. -/
theorem C4_storage_roundtrip_witness :
    memRead (memWrite [("_default", [("1", PyVal.pydict [("name", PyVal.pystr ("test"))])])] none)
        = some [("_default", [("1", PyVal.pydict [("name", PyVal.pystr ("test"))])])]
    ∧ jsonRead (jsonWrite [("_default", [("1", PyVal.pydict [("name", PyVal.pystr ("test"))])])] none)
        = some [("_default", [("1", PyVal.pydict [("name", PyVal.pystr ("test"))])])] :=
  C4_storage_roundtrip [("_default", [("1", PyVal.pydict [("name", PyVal.pystr ("test"))])])]
    none none (by decide)

theorem freezeHeap_cyclicList_none :
    ∀ fuel : Nat, freezeHeap cyclicListHeap fuel [] 0 [] = none := by
  intro fuel
  induction fuel with
  | zero => rw [freezeHeap]
  | succ n ih =>
    rw [cyclicListHeap] at ih
    simp [freezeHeap, cyclicListHeap, findVal, freezeAddrs, ih]

theorem freezeHeap_cyclicDict_some :
    ∀ fuel : Nat, 2 ≤ fuel →
      freezeHeap cyclicDictHeap fuel [] 0 []
        = some [(0, FNode.ffrozendict [("a", 0)])] := by
  intro fuel h
  obtain ⟨m, rfl⟩ : ∃ m, fuel = m + 2 := ⟨fuel - 2, by omega⟩
  simp [freezeHeap, cyclicDictHeap, findVal, freezeAddrs]

/-- C7: `freeze` on a self-referential sequence (a list containing itself)
recurses without terminating: it exhausts every recursion depth budget,
surfacing as a recursion-limit error; `freeze` on a self-referential mapping
(a dict containing itself as a value) terminates for every sufficient budget
and returns a frozen mapping whose entry is the frozen mapping itself: the
entry holds the address of its own node, the aliased pre-registered
result. -/
theorem C7_freeze_self_referential :
    (∀ fuel : Nat, freezeHeap cyclicListHeap fuel [] 0 [] = none)
    ∧ (∀ fuel : Nat, 2 ≤ fuel →
        freezeHeap cyclicDictHeap fuel [] 0 []
          = some [(0, FNode.ffrozendict [("a", 0)])]) :=
  ⟨freezeHeap_cyclicList_none, freezeHeap_cyclicDict_some⟩

/-- Witness for C7: with depth budget 5 the self-referential mapping freezes
to the aliased frozen mapping. -/
theorem C7_freeze_self_referential_witness :
    freezeHeap cyclicDictHeap 5 [] 0 [] = some [(0, FNode.ffrozendict [("a", 0)])] :=
  C7_freeze_self_referential.2 5 (by decide)

/- ===================== Lemmas: the generation scripts ===================== -/

theorem collectTests_total (env : ScriptEnv) (resp : String → String)
    (hm : ∀ p, env.modelResponse p = some (resp p)) :
    ∀ prs : List (String × String),
      collectTests env prs
        = (prs.map (fun p => Effect.apiCall p.2), .ok (specBlocks resp prs)) := by
  intro prs
  induction prs with
  | nil => rfl
  | cons p rest ih =>
    obtain ⟨name, prompt⟩ := p
    simp only [collectTests, hm prompt, ih, specBlocks, List.map_cons]

theorem collectTests_error_api (env : ScriptEnv) :
    ∀ (prs : List (String × String)) (e : ScriptError),
      (collectTests env prs).2 = .error e → e = ScriptError.apiError := by
  intro prs
  induction prs with
  | nil => intro e h; simp [collectTests] at h
  | cons p rest ih =>
    intro e h
    obtain ⟨name, prompt⟩ := p
    rw [collectTests] at h
    cases hm : env.modelResponse prompt with
    | none =>
      rw [hm] at h
      simp at h
      exact h.symm
    | some resp =>
      rw [hm] at h
      simp only at h
      cases ht : (collectTests env rest).2 with
      | ok acc => rw [ht] at h; simp at h
      | error e2 =>
        rw [ht] at h
        simp at h
        exact h ▸ ih e2 ht

theorem runUtilsScript_success (env : ScriptEnv) (key text : String) (tree : PyModule)
    (resp : String → String)
    (hkey : env.genaiKey = some key) (hne : key ≠ "")
    (hsrc : env.sourceFile = some text) (hparse : env.parse text = some tree)
    (hm : ∀ p, env.modelResponse p = some (resp p))
    (hdefs : (utilsExtract tree).isEmpty = false) :
    runUtilsScript env
      = ([Effect.configureApi key, Effect.makeDirs ("tests/generated"),
          Effect.readFile ("./tinydb/utils.py")]
          ++ (utilsExtract tree).map
              (fun d => Effect.apiCall (utilsPrompt (pyDefName d) (pyDefSrc d)))
          ++ [Effect.writeFile ("tests/generated/test_utils_methods.py")
              (pystrip (specBlocks resp ((utilsExtract tree).map
                (fun d => (pyDefName d, utilsPrompt (pyDefName d) (pyDefSrc d))))))],
         none) := by
  simp only [runUtilsScript, hkey, hsrc, hparse, hdefs, if_neg hne,
    collectTests_total env resp hm, List.map_map, Bool.false_eq_true, if_false]
  rfl

theorem runTestsScript_success (env : ScriptEnv) (key text : String) (tree : PyModule)
    (ms : List (String × String)) (resp : String → String)
    (hkey : env.genaiKey = some key) (hne : key ≠ "")
    (hsrc : env.sourceFile = some text) (hparse : env.parse text = some tree)
    (hm : ∀ p, env.modelResponse p = some (resp p))
    (hclass : findClass tree ("TinyDB") = some ms) :
    runTestsScript env
      = ([Effect.configureApi key, Effect.makeDirs ("tests/generated"),
          Effect.readFile ("./tinydb/database.py")]
          ++ (publicMethods ms).map (fun m => Effect.apiCall (testsPrompt m.2))
          ++ [Effect.writeFile ("tests/generated/test_tinydb_methods.py")
              (pystrip (specBlocks resp ((publicMethods ms).map
                (fun m => (m.1, testsPrompt m.2)))))],
         none) := by
  simp only [runTestsScript, hkey, hsrc, hparse, hclass, if_neg hne,
    collectTests_total env resp hm, List.map_map]
  rfl

theorem runOperationsScript_success (env : ScriptEnv) (key text : String) (tree : PyModule)
    (resp : String → String)
    (hkey : env.genaiKey = some key) (hne : key ≠ "")
    (hsrc : env.sourceFile = some text) (hparse : env.parse text = some tree)
    (hm : ∀ p, env.modelResponse p = some (resp p)) :
    runOperationsScript env
      = ([Effect.configureApi key, Effect.makeDirs ("tests/generated"),
          Effect.readFile ("./tinydb/operations.py")]
          ++ (opsExtract tree).map (fun m => Effect.apiCall (operationsPrompt m.2))
          ++ [Effect.writeFile ("tests/generated/test_operations_methods.py")
              (pystrip (specBlocks resp ((opsExtract tree).map
                (fun m => (m.1, operationsPrompt m.2)))))],
         none) := by
  simp only [runOperationsScript, hkey, hsrc, hparse, if_neg hne,
    collectTests_total env resp hm, List.map_map]
  rfl

theorem runQueriesScript_success (env : ScriptEnv) (key text : String) (tree : PyModule)
    (resp : String → String)
    (hkey : env.genaiKey = some key) (hne : key ≠ "")
    (hsrc : env.sourceFile = some text) (hparse : env.parse text = some tree)
    (hm : ∀ p, env.modelResponse p = some (resp p)) :
    runQueriesScript env
      = ([Effect.configureApi key, Effect.makeDirs ("tests/generated"),
          Effect.readFile ("./tinydb/queries.py")]
          ++ (queriesExtract tree).map (fun m => Effect.apiCall (queriesPrompt m.1 m.2.2))
          ++ [Effect.writeFile ("tests/generated/test_query_methods.py")
              (pystrip (specBlocks resp ((queriesExtract tree).map
                (fun m => (m.2.1, queriesPrompt m.1 m.2.2)))))],
         none) := by
  simp only [runQueriesScript, hkey, hsrc, hparse, if_neg hne,
    collectTests_total env resp hm, List.map_map]
  rfl

theorem runUtilsScript_valueErrors (env : ScriptEnv) (key : String)
    (hkey : env.genaiKey = some key) (hne : key ≠ "") :
    ∀ m, (runUtilsScript env).2 = some (.valueError m) →
      m = "No target definitions found in utils.py" := by
  intro m h
  simp only [runUtilsScript, hkey, if_neg hne] at h
  cases hsrc : env.sourceFile with
  | none => simp only [hsrc] at h; simp at h
  | some text =>
    simp only [hsrc] at h
    cases hparse : env.parse text with
    | none => simp only [hparse] at h; simp at h
    | some tree =>
      simp only [hparse] at h
      by_cases hdefs : (utilsExtract tree).isEmpty
      · rw [if_pos hdefs] at h
        simp at h
        exact h.symm
      · rw [if_neg hdefs] at h
        generalize hg : collectTests env ((utilsExtract tree).map
          (fun d => (pyDefName d, utilsPrompt (pyDefName d) (pyDefSrc d)))) = res at h
        obtain ⟨effs, cres⟩ := res
        cases cres with
        | ok allTests => simp at h
        | error e =>
          simp at h
          have he : e = ScriptError.apiError :=
            collectTests_error_api env _ e (by rw [hg])
          rw [he] at h
          simp at h

theorem runTestsScript_valueErrors (env : ScriptEnv) (key : String)
    (hkey : env.genaiKey = some key) (hne : key ≠ "") :
    ∀ m, (runTestsScript env).2 = some (.valueError m) →
      m = "Class 'TinyDB' not found in ./tinydb/database.py" := by
  intro m h
  simp only [runTestsScript, hkey, if_neg hne] at h
  cases hsrc : env.sourceFile with
  | none => simp only [hsrc] at h; simp at h
  | some text =>
    simp only [hsrc] at h
    cases hparse : env.parse text with
    | none => simp only [hparse] at h; simp at h
    | some tree =>
      simp only [hparse] at h
      cases hclass : findClass tree ("TinyDB") with
      | none =>
        simp only [hclass] at h
        simp at h
        exact h.symm
      | some ms =>
        simp only [hclass] at h
        generalize hg : collectTests env ((publicMethods ms).map
          (fun m => (m.1, testsPrompt m.2))) = res at h
        obtain ⟨effs, cres⟩ := res
        cases cres with
        | ok allTests => simp at h
        | error e =>
          simp at h
          have he : e = ScriptError.apiError :=
            collectTests_error_api env _ e (by rw [hg])
          rw [he] at h
          simp at h

theorem runOperationsScript_valueErrors (env : ScriptEnv) (key : String)
    (hkey : env.genaiKey = some key) (hne : key ≠ "") :
    ∀ m, (runOperationsScript env).2 ≠ some (.valueError m) := by
  intro m h
  simp only [runOperationsScript, hkey, if_neg hne] at h
  cases hsrc : env.sourceFile with
  | none => simp only [hsrc] at h; simp at h
  | some text =>
    simp only [hsrc] at h
    cases hparse : env.parse text with
    | none => simp only [hparse] at h; simp at h
    | some tree =>
      simp only [hparse] at h
      generalize hg : collectTests env ((opsExtract tree).map
        (fun m => (m.1, operationsPrompt m.2))) = res at h
      obtain ⟨effs, cres⟩ := res
      cases cres with
      | ok allTests => simp at h
      | error e =>
        simp at h
        have he : e = ScriptError.apiError :=
          collectTests_error_api env _ e (by rw [hg])
        rw [he] at h
        simp at h

theorem runQueriesScript_valueErrors (env : ScriptEnv) (key : String)
    (hkey : env.genaiKey = some key) (hne : key ≠ "") :
    ∀ m, (runQueriesScript env).2 ≠ some (.valueError m) := by
  intro m h
  simp only [runQueriesScript, hkey, if_neg hne] at h
  cases hsrc : env.sourceFile with
  | none => simp only [hsrc] at h; simp at h
  | some text =>
    simp only [hsrc] at h
    cases hparse : env.parse text with
    | none => simp only [hparse] at h; simp at h
    | some tree =>
      simp only [hparse] at h
      generalize hg : collectTests env ((queriesExtract tree).map
        (fun m => (m.2.1, queriesPrompt m.1 m.2.2))) = res at h
      obtain ⟨effs, cres⟩ := res
      cases cres with
      | ok allTests => simp at h
      | error e =>
        simp at h
        have he : e = ScriptError.apiError :=
          collectTests_error_api env _ e (by rw [hg])
        rw [he] at h
        simp at h

/-- Counterexample to C8: with a valid API key and a source module containing
no target definitions, the utils generation script itself raises a
`ValueError` ("No target definitions found in utils.py") — failure handling
beyond the missing-API-key check that does not propagate from file, parsing
or API calls, so the key check is not the only failure handling the scripts
perform. -/
theorem C8_counterexample :
    (ScriptEnv.mk (some ("k")) (some ("text")) (fun _ => some []) (fun _ => some ("t"))).genaiKey
        = some ("k")
    ∧ (runUtilsScript
        (ScriptEnv.mk (some ("k")) (some ("text")) (fun _ => some []) (fun _ => some ("t")))).2
      = some (ScriptError.valueError ("No target definitions found in utils.py")) :=
  ⟨rfl, rfl⟩

/-- C8 (amended): every generation script checks `GENAI_API_KEY` before doing
any other work (the effect trace is empty) and raises a `ValueError` when the
variable is unset or empty; beyond errors propagated from file reading,
parsing, or API calls, the only further failure handling is the utils
script's `ValueError` when no target definition is found and the tests
script's `ValueError` when the `TinyDB` class is missing; the operations and
queries scripts raise no error of their own besides the key check. -/
theorem C8_api_key_check_amended (env : ScriptEnv) :
    ((env.genaiKey = none ∨ env.genaiKey = some "") →
      runUtilsScript env = ([], some (.valueError apiKeyErrMsg))
      ∧ runTestsScript env = ([], some (.valueError apiKeyErrMsg))
      ∧ runOperationsScript env = ([], some (.valueError apiKeyErrMsg))
      ∧ runQueriesScript env = ([], some (.valueError apiKeyErrMsg)))
    ∧ (∀ key : String, env.genaiKey = some key → key ≠ "" →
      (∀ m, (runUtilsScript env).2 = some (.valueError m) →
          m = "No target definitions found in utils.py")
      ∧ (∀ m, (runTestsScript env).2 = some (.valueError m) →
          m = "Class 'TinyDB' not found in ./tinydb/database.py")
      ∧ (∀ m, (runOperationsScript env).2 ≠ some (.valueError m))
      ∧ (∀ m, (runQueriesScript env).2 ≠ some (.valueError m))) := by
  constructor
  · intro hk
    rcases hk with hk | hk
    · exact ⟨by simp [runUtilsScript, hk], by simp [runTestsScript, hk],
        by simp [runOperationsScript, hk], by simp [runQueriesScript, hk]⟩
    · exact ⟨by simp [runUtilsScript, hk], by simp [runTestsScript, hk],
        by simp [runOperationsScript, hk], by simp [runQueriesScript, hk]⟩
  · intro key hkey hne
    exact ⟨runUtilsScript_valueErrors env key hkey hne,
      runTestsScript_valueErrors env key hkey hne,
      runOperationsScript_valueErrors env key hkey hne,
      runQueriesScript_valueErrors env key hkey hne⟩

/-- Witness for C8 (amended): with the key unset, the utils script stops at
once with the `ValueError` and an empty effect trace. -/
theorem C8_api_key_check_amended_witness :
    runUtilsScript (ScriptEnv.mk none none (fun _ => none) (fun _ => none))
      = ([], some (ScriptError.valueError apiKeyErrMsg)) :=
  ((C8_api_key_check_amended (ScriptEnv.mk none none (fun _ => none) (fun _ => none))).1
    (Or.inl rfl)).1

theorem publicMethods_no_underscore (ms : List (String × String)) :
    ∀ p ∈ publicMethods ms, startsWithUnderscore p.1 = false := by
  intro p hp
  rw [publicMethods, List.mem_filter] at hp
  have := hp.2
  simp at this
  exact this

theorem opsExtract_no_underscore (tree : PyModule) :
    ∀ p ∈ opsExtract tree, startsWithUnderscore p.1 = false := by
  intro p hp
  rw [opsExtract, List.mem_filterMap] at hp
  obtain ⟨d, _, hf⟩ := hp
  cases d with
  | funcDef n s =>
    simp only at hf
    by_cases hn : startsWithUnderscore n
    · rw [if_pos hn] at hf
      simp at hf
    · rw [if_neg hn] at hf
      simp at hf
      rw [← hf]
      simpa using hn
  | classDef n ms s => simp at hf
  | otherNode => simp at hf

theorem classMethodsOf_no_underscore (tree : PyModule) (cname : String) :
    ∀ p ∈ classMethodsOf tree cname, startsWithUnderscore p.1 = false := by
  intro p hp
  rw [classMethodsOf] at hp
  cases hc : findClass tree cname with
  | none => rw [hc] at hp; simp at hp
  | some ms =>
    rw [hc] at hp
    exact publicMethods_no_underscore ms p hp

theorem queriesExtract_no_underscore (tree : PyModule) :
    ∀ p ∈ queriesExtract tree, startsWithUnderscore p.2.1 = false := by
  intro p hp
  rw [queriesExtract, List.mem_append] at hp
  rcases hp with hp | hp <;>
  · rw [List.mem_map] at hp
    obtain ⟨m, hm, rfl⟩ := hp
    exact classMethodsOf_no_underscore tree _ m hm

theorem runUtilsScript_no_targets (env : ScriptEnv) (key text : String) (tree : PyModule)
    (hkey : env.genaiKey = some key) (hne : key ≠ "")
    (hsrc : env.sourceFile = some text) (hparse : env.parse text = some tree)
    (hdefs : (utilsExtract tree).isEmpty = true) :
    (runUtilsScript env).2
      = some (ScriptError.valueError ("No target definitions found in utils.py")) := by
  simp only [runUtilsScript, hkey, if_neg hne, hsrc, hparse, hdefs, if_true]

theorem runTestsScript_no_class (env : ScriptEnv) (key text : String) (tree : PyModule)
    (hkey : env.genaiKey = some key) (hne : key ≠ "")
    (hsrc : env.sourceFile = some text) (hparse : env.parse text = some tree)
    (hclass : findClass tree ("TinyDB") = none) :
    (runTestsScript env).2
      = some (ScriptError.valueError ("Class 'TinyDB' not found in ./tinydb/database.py")) := by
  simp only [runTestsScript, hkey, if_neg hne, hsrc, hparse, hclass]

/-- Counterexample to C9: the operations generation script does not raise an
error when no target definition is found: on a module whose only node is a
non-definition statement it extracts nothing, reports no error, and still
writes the output file, so the parenthetical "raising an error if no target
definition is found" fails for it. -/
theorem C9_counterexample :
    opsExtract [PyDef.otherNode] = []
    ∧ (runOperationsScript (ScriptEnv.mk (some ("k")) (some ("text"))
        (fun _ => some [PyDef.otherNode]) (fun _ => some ("t")))).2 = none :=
  ⟨rfl, rfl⟩

/-- C9 (amended): each generation script implements the glue pipeline — it
reads its one source file, extracts the targeted definitions from the parsed
module, builds one prompt per extracted definition containing that
definition's source segment, sends each prompt to the model, and writes the
stripped concatenation of all stripped responses, each preceded by a header
naming the definition, to its single output file under `tests/generated` —
but only the utils script raises an error when no target definition is found
and only the tests script when its target class is missing; the operations
and queries scripts proceed without error when nothing is extracted. -/
theorem C9_glue_pipeline_amended (env : ScriptEnv) (key text : String) (tree : PyModule)
    (resp : String → String)
    (hkey : env.genaiKey = some key) (hne : key ≠ "")
    (hsrc : env.sourceFile = some text) (hparse : env.parse text = some tree)
    (hm : ∀ p, env.modelResponse p = some (resp p)) :
    ((utilsExtract tree).isEmpty = false →
      runUtilsScript env
        = ([Effect.configureApi key, Effect.makeDirs ("tests/generated"),
            Effect.readFile ("./tinydb/utils.py")]
            ++ (utilsExtract tree).map
                (fun d => Effect.apiCall (utilsPrompt (pyDefName d) (pyDefSrc d)))
            ++ [Effect.writeFile ("tests/generated/test_utils_methods.py")
                (pystrip (specBlocks resp ((utilsExtract tree).map
                  (fun d => (pyDefName d, utilsPrompt (pyDefName d) (pyDefSrc d))))))],
           none))
    ∧ ((utilsExtract tree).isEmpty = true →
      (runUtilsScript env).2
        = some (ScriptError.valueError ("No target definitions found in utils.py")))
    ∧ (∀ ms, findClass tree ("TinyDB") = some ms →
      runTestsScript env
        = ([Effect.configureApi key, Effect.makeDirs ("tests/generated"),
            Effect.readFile ("./tinydb/database.py")]
            ++ (publicMethods ms).map (fun m => Effect.apiCall (testsPrompt m.2))
            ++ [Effect.writeFile ("tests/generated/test_tinydb_methods.py")
                (pystrip (specBlocks resp ((publicMethods ms).map
                  (fun m => (m.1, testsPrompt m.2)))))],
           none))
    ∧ (findClass tree ("TinyDB") = none →
      (runTestsScript env).2
        = some (ScriptError.valueError ("Class 'TinyDB' not found in ./tinydb/database.py")))
    ∧ runOperationsScript env
        = ([Effect.configureApi key, Effect.makeDirs ("tests/generated"),
            Effect.readFile ("./tinydb/operations.py")]
            ++ (opsExtract tree).map (fun m => Effect.apiCall (operationsPrompt m.2))
            ++ [Effect.writeFile ("tests/generated/test_operations_methods.py")
                (pystrip (specBlocks resp ((opsExtract tree).map
                  (fun m => (m.1, operationsPrompt m.2)))))],
           none)
    ∧ runQueriesScript env
        = ([Effect.configureApi key, Effect.makeDirs ("tests/generated"),
            Effect.readFile ("./tinydb/queries.py")]
            ++ (queriesExtract tree).map (fun m => Effect.apiCall (queriesPrompt m.1 m.2.2))
            ++ [Effect.writeFile ("tests/generated/test_query_methods.py")
                (pystrip (specBlocks resp ((queriesExtract tree).map
                  (fun m => (m.2.1, queriesPrompt m.1 m.2.2)))))],
           none)
    ∧ (∀ name src, ∃ a, utilsPrompt name src = a ++ src)
    ∧ (∀ code, ∃ a b, testsPrompt code = a ++ code ++ b)
    ∧ (∀ code, ∃ a b, operationsPrompt code = a ++ code ++ b)
    ∧ (∀ cname code, ∃ a b, queriesPrompt cname code = a ++ code ++ b) := by
  refine ⟨?_, ?_, ?_, ?_, ?_, ?_, ?_, ?_, ?_, ?_⟩
  · intro hdefs
    exact runUtilsScript_success env key text tree resp hkey hne hsrc hparse hm hdefs
  · intro hdefs
    exact runUtilsScript_no_targets env key text tree hkey hne hsrc hparse hdefs
  · intro ms hclass
    exact runTestsScript_success env key text tree ms resp hkey hne hsrc hparse hm hclass
  · intro hclass
    exact runTestsScript_no_class env key text tree hkey hne hsrc hparse hclass
  · exact runOperationsScript_success env key text tree resp hkey hne hsrc hparse hm
  · exact runQueriesScript_success env key text tree resp hkey hne hsrc hparse hm
  · intro name src
    exact ⟨_, rfl⟩
  · intro code
    exact ⟨_, _, rfl⟩
  · intro code
    exact ⟨_, _, rfl⟩
  · intro cname code
    exact ⟨_, _, rfl⟩

/-- Witness for C9 (amended): the operations script on a module with one
public function runs the full pipeline with no error. -/
theorem C9_glue_pipeline_amended_witness :
    runOperationsScript (ScriptEnv.mk (some ("k")) (some ("text"))
        (fun _ => some [PyDef.funcDef ("add") ("def add(field, n): pass")])
        (fun _ => some ("resp")))
      = ([Effect.configureApi ("k"), Effect.makeDirs ("tests/generated"),
          Effect.readFile ("./tinydb/operations.py")]
          ++ (opsExtract [PyDef.funcDef ("add") ("def add(field, n): pass")]).map
              (fun m => Effect.apiCall (operationsPrompt m.2))
          ++ [Effect.writeFile ("tests/generated/test_operations_methods.py")
              (pystrip (specBlocks (fun _ => "resp")
                ((opsExtract [PyDef.funcDef ("add") ("def add(field, n): pass")]).map
                  (fun m => (m.1, operationsPrompt m.2)))))],
         none) :=
  (C9_glue_pipeline_amended (ScriptEnv.mk (some ("k")) (some ("text"))
      (fun _ => some [PyDef.funcDef ("add") ("def add(field, n): pass")])
      (fun _ => some ("resp")))
    ("k") ("text") [PyDef.funcDef ("add") ("def add(field, n): pass")] (fun _ => "resp")
    rfl (by decide) rfl rfl (fun _ => rfl)).2.2.2.2.1

/-- C10: the scripts that select definitions by visibility (operations,
queries, tests) generate only for public definitions: every extracted
definition's name avoids a leading underscore, every prompt sent by a run
belongs to an extracted (public) definition, and the written file content is
exactly the blocks of those public definitions, so no prompt is built and no
test block is emitted for an underscore-named function or method. -/
theorem C10_only_public_definitions (env : ScriptEnv) (key text : String) (tree : PyModule)
    (resp : String → String)
    (hkey : env.genaiKey = some key) (hne : key ≠ "")
    (hsrc : env.sourceFile = some text) (hparse : env.parse text = some tree)
    (hm : ∀ p, env.modelResponse p = some (resp p)) :
    (∀ p ∈ opsExtract tree, startsWithUnderscore p.1 = false)
    ∧ (∀ ms : List (String × String), ∀ p ∈ publicMethods ms, startsWithUnderscore p.1 = false)
    ∧ (∀ p ∈ queriesExtract tree, startsWithUnderscore p.2.1 = false)
    ∧ (∀ pr, Effect.apiCall pr ∈ (runOperationsScript env).1 →
        ∃ m ∈ opsExtract tree, pr = operationsPrompt m.2)
    ∧ (∀ path content, Effect.writeFile path content ∈ (runOperationsScript env).1 →
        content = pystrip (specBlocks resp ((opsExtract tree).map
          (fun m => (m.1, operationsPrompt m.2)))))
    ∧ (∀ pr, Effect.apiCall pr ∈ (runQueriesScript env).1 →
        ∃ m ∈ queriesExtract tree, pr = queriesPrompt m.1 m.2.2)
    ∧ (∀ path content, Effect.writeFile path content ∈ (runQueriesScript env).1 →
        content = pystrip (specBlocks resp ((queriesExtract tree).map
          (fun m => (m.2.1, queriesPrompt m.1 m.2.2)))))
    ∧ (∀ ms, findClass tree ("TinyDB") = some ms →
        (∀ pr, Effect.apiCall pr ∈ (runTestsScript env).1 →
          ∃ m ∈ publicMethods ms, pr = testsPrompt m.2)
        ∧ (∀ path content, Effect.writeFile path content ∈ (runTestsScript env).1 →
          content = pystrip (specBlocks resp ((publicMethods ms).map
            (fun m => (m.1, testsPrompt m.2)))))) := by
  have hops := runOperationsScript_success env key text tree resp hkey hne hsrc hparse hm
  have hqs := runQueriesScript_success env key text tree resp hkey hne hsrc hparse hm
  refine ⟨opsExtract_no_underscore tree, ?_, queriesExtract_no_underscore tree,
    ?_, ?_, ?_, ?_, ?_⟩
  · intro ms
    exact publicMethods_no_underscore ms
  · intro pr hpr
    rw [hops] at hpr
    simp [List.mem_append, List.mem_map] at hpr
    obtain ⟨a, b, hmem, heq⟩ := hpr
    exact ⟨(a, b), hmem, heq.symm⟩
  · intro path content hwf
    rw [hops] at hwf
    simp [List.mem_append, List.mem_map] at hwf
    exact hwf.2
  · intro pr hpr
    rw [hqs] at hpr
    simp [List.mem_append, List.mem_map] at hpr
    obtain ⟨a, b, c, hmem, heq⟩ := hpr
    exact ⟨(a, b, c), hmem, heq.symm⟩
  · intro path content hwf
    rw [hqs] at hwf
    simp [List.mem_append, List.mem_map] at hwf
    exact hwf.2
  · intro ms hclass
    have hts := runTestsScript_success env key text tree ms resp hkey hne hsrc hparse hm hclass
    constructor
    · intro pr hpr
      rw [hts] at hpr
      simp [List.mem_append, List.mem_map] at hpr
      obtain ⟨a, b, hmem, heq⟩ := hpr
      exact ⟨(a, b), hmem, heq.symm⟩
    · intro path content hwf
      rw [hts] at hwf
      simp [List.mem_append, List.mem_map] at hwf
      exact hwf.2

/-- Witness for C10: on a module holding a private `_hidden` function and a
public `add` function, the operations script's extraction contains `add`,
whose name has no leading underscore. -/
theorem C10_only_public_definitions_witness :
    startsWithUnderscore (("add", "def add(): pass") : String × String).1 = false :=
  (C10_only_public_definitions (ScriptEnv.mk (some ("k")) (some ("text"))
      (fun _ => some [PyDef.funcDef ("_hidden") ("h"),
        PyDef.funcDef ("add") ("def add(): pass")])
      (fun _ => some ("r")))
    ("k") ("text")
    [PyDef.funcDef ("_hidden") ("h"), PyDef.funcDef ("add") ("def add(): pass")]
    (fun _ => "r") rfl (by decide) rfl rfl (fun _ => rfl)).1
    ("add", "def add(): pass") (by decide)
